import Mathlib

/-!
Shallow embedding of the hope_backend content-graph engine
(`PostDAO` / `CommentDAO`, file `dao` package): posts, post images,
post likes, comments, comment likes, and the transactional operations
over them.  Rows are Lean structures mirroring the Go structs (int64 /
int fields become `Int`; nullable `*int64` becomes `Option Int`);
the database is record of row lists plus an auto-increment id source.
GORM's transactions commit atomically, so each operation is a pure
function from the pre-state to either a typed error (the Go error
strings, mapped to named constructors) or the post-state; a rolled
back transaction leaves the state unchanged, which the step function
`applyOp` expresses by returning the pre-state on error.

Virtual (gorm:"-") fields are not part of the stored rows; hydrated
query results use separate structures (`CommentTree`, `PostView`).
The `UserInfo` side-lookup into `user_profiles` is a best-effort read
that affects no claim and is omitted from the hydrated views.
-/

/-- Stored row of the `posts` table (Go struct `Post`, stored columns only). -/
structure PostRow where
  id : Int
  userId : Int
  content : String
  viewCount : Int
  likeCount : Int
  commentCount : Int
  createdAt : Int
  updatedAt : Int
  deriving Repr, DecidableEq

/-- Stored row of the `post_images` table (Go struct `PostImage`). -/
structure PostImage where
  id : Int
  postId : Int
  imagePath : String
  displayOrder : Int
  createdAt : Int
  deriving Repr, DecidableEq

/-- Stored row of the `post_likes` table (Go struct `PostLike`). -/
structure PostLike where
  id : Int
  postId : Int
  userId : Int
  createdAt : Int
  deriving Repr, DecidableEq

/-- Stored row of the `comments` table (Go struct `Comment`, stored columns only). -/
structure CommentRow where
  id : Int
  postId : Int
  userId : Int
  parentId : Option Int
  content : String
  likeCount : Int
  replyCount : Int
  level : Int
  createdAt : Int
  updatedAt : Int
  deriving Repr, DecidableEq

/-- Stored row of the `comment_likes` table (Go struct `CommentLike`). -/
structure CommentLike where
  id : Int
  commentId : Int
  userId : Int
  createdAt : Int
  deriving Repr, DecidableEq

/-- The relational store: the five tables the content engine touches,
plus the auto-increment id source (one shared counter; only
freshness/uniqueness of generated ids is observable). -/
structure DB where
  posts : List PostRow
  postImages : List PostImage
  postLikes : List PostLike
  comments : List CommentRow
  commentLikes : List CommentLike
  nextId : Int
  deriving Repr, DecidableEq

/-- The empty store. -/
def DB.empty : DB :=
  { posts := [], postImages := [], postLikes := [], comments := [],
    commentLikes := [], nextId := 1 }

/-- The typed failures of the engine (the Go `errors.New` strings,
mapped to the spec's taxonomy names). -/
inductive Err where
  | parentNotFound
  | maxNestingExceeded
  | commentNotFound
  | postNotFound
  | alreadyLiked
  | notLiked
  deriving Repr, DecidableEq

/-- `db.First(&post, id)`: lookup by primary key. -/
def findPost (db : DB) (id : Int) : Option PostRow :=
  db.posts.find? (fun p => p.id = id)

/-- `tx.First(&comment, id)`: lookup by primary key. -/
def findComment (db : DB) (id : Int) : Option CommentRow :=
  db.comments.find? (fun c => c.id = id)

/-- `UPDATE comments SET reply_count = reply_count + d WHERE id = cid`. -/
def bumpReplyCount (db : DB) (cid : Int) (d : Int) : DB :=
  { db with comments :=
      db.comments.map (fun c =>
        if c.id = cid then { c with replyCount := c.replyCount + d } else c) }

/-- `UPDATE comments SET like_count = like_count + d WHERE id = cid`. -/
def bumpCommentLikeCount (db : DB) (cid : Int) (d : Int) : DB :=
  { db with comments :=
      db.comments.map (fun c =>
        if c.id = cid then { c with likeCount := c.likeCount + d } else c) }

/-- `UPDATE posts SET comment_count = comment_count + d WHERE id = pid`. -/
def bumpCommentCount (db : DB) (pid : Int) (d : Int) : DB :=
  { db with posts :=
      db.posts.map (fun p =>
        if p.id = pid then { p with commentCount := p.commentCount + d } else p) }

/-- `UPDATE posts SET like_count = like_count + d WHERE id = pid`. -/
def bumpPostLikeCount (db : DB) (pid : Int) (d : Int) : DB :=
  { db with posts :=
      db.posts.map (fun p =>
        if p.id = pid then { p with likeCount := p.likeCount + d } else p) }

/-- `UPDATE posts SET view_count = view_count + d WHERE id = pid`. -/
def bumpViewCount (db : DB) (pid : Int) (d : Int) : DB :=
  { db with posts :=
      db.posts.map (fun p =>
        if p.id = pid then { p with viewCount := p.viewCount + d } else p) }

/-- `CommentDAO.Create`, as invoked by `CreateCommentHandler`: the handler
builds `Comment{PostID, UserID, ParentID, Content}` (the `Level` and
counter fields keep Go's zero value 0), and the DAO, in one transaction:
if a parent id is given, loads the parent (`parent comment not found` if
absent), sets `level := parent.Level + 1`, rejects `level > 3` with
`maximum comment nesting level reached`, and increments the parent's
`reply_count`; then inserts the comment row and increments the post's
`comment_count` (a no-op update when no such post row exists — the post's
existence is never checked).  Returns the new comment's id. -/
def commentCreate (db : DB) (now : Int) (postId userId : Int)
    (parentId : Option Int) (content : String) : Except Err (DB × Int) :=
  match parentId with
  | none =>
    let row : CommentRow :=
      { id := db.nextId, postId := postId, userId := userId,
        parentId := none, content := content, likeCount := 0,
        replyCount := 0, level := 0, createdAt := now, updatedAt := now }
    let db1 := { db with
      comments := db.comments ++ [row],
      nextId := db.nextId + 1 }
    Except.ok (bumpCommentCount db1 postId 1, row.id)
  | some pid =>
    match findComment db pid with
    | none => Except.error Err.parentNotFound
    | some parent =>
      if parent.level + 1 > 3 then Except.error Err.maxNestingExceeded
      else
        let db0 := bumpReplyCount db pid 1
        let row : CommentRow :=
          { id := db0.nextId, postId := postId, userId := userId,
            parentId := some pid, content := content, likeCount := 0,
            replyCount := 0, level := parent.level + 1, createdAt := now,
            updatedAt := now }
        let db1 := { db0 with
          comments := db0.comments ++ [row],
          nextId := db0.nextId + 1 }
        Except.ok (bumpCommentCount db1 postId 1, row.id)

/-- `CommentDAO.deleteCommentLikesRecursive`: deletes the like rows of
`cid`, then recurses into each direct reply.  The Go recursion is
unbounded; `fuel` is an upper bound on the recursion depth, and every
call site passes fuel that suffices whenever the parent graph is acyclic
(in particular on every reachable store). -/
def delLikesRec (fuel : Nat) (db : DB) (cid : Int) : DB :=
  match fuel with
  | 0 => db
  | fuel + 1 =>
    let db := { db with commentLikes :=
      db.commentLikes.filter (fun l => ¬ l.commentId = cid) }
    let replies := db.comments.filter (fun c => c.parentId = some cid)
    replies.foldl (fun acc r => delLikesRec fuel acc r.id) db

/-- `CommentDAO.deleteCommentRepliesRecursive`: recurses into each direct
reply of `cid`, then deletes all rows with `parent_id = cid`.  Fuel as in
`delLikesRec`. -/
def delRepliesRec (fuel : Nat) (db : DB) (cid : Int) : DB :=
  match fuel with
  | 0 => db
  | fuel + 1 =>
    let replies := db.comments.filter (fun c => c.parentId = some cid)
    let db := replies.foldl (fun acc r => delRepliesRec fuel acc r.id) db
    { db with comments := db.comments.filter (fun c => ¬ c.parentId = some cid) }

/-- `CommentDAO.Delete`: in one transaction, loads the comment
(`comment not found` if absent), counts its DIRECT replies and sets
`totalToSubtract := replyCount + 1`, recursively deletes the like rows
of the whole subtree, recursively deletes every descendant row, deletes
the comment row itself, decrements the parent's `reply_count` if any,
and decrements the post's `comment_count` by `totalToSubtract`. -/
def commentDelete (db : DB) (id : Int) : Except Err DB :=
  match findComment db id with
  | none => throw Err.commentNotFound
  | some comment =>
    let replyCount : Int := (db.comments.filter (fun c => c.parentId = some id)).length
    let totalToSubtract := replyCount + 1
    let db := delLikesRec (db.comments.length + 1) db id
    let db := delRepliesRec (db.comments.length + 1) db id
    let db := { db with comments := db.comments.filter (fun c => ¬ c.id = id) }
    let db := match comment.parentId with
      | some pid => bumpReplyCount db pid (-1)
      | none => db
    pure (bumpCommentCount db comment.postId (-totalToSubtract))

/-- `CommentDAO.DeleteAllForPost` (used only by `PostDAO.Delete`): deletes
every comment-like row whose comment belongs to the post, then every
comment row of the post.  Dangling replies whose parent lived under this
post but which belong to another post are NOT removed. -/
def deleteAllForPost (db : DB) (postId : Int) : DB :=
  let ids := (db.comments.filter (fun c => c.postId = postId)).map (fun c => c.id)
  let db := { db with commentLikes :=
    db.commentLikes.filter (fun l => ¬ l.commentId ∈ ids) }
  { db with comments := db.comments.filter (fun c => ¬ c.postId = postId) }

/-- `CommentDAO.LikeComment`: checks the comment exists, then in one
transaction checks the ledger for `(commentID, userID)` — rejecting with
`comment already liked by user` when present — inserts the like row and
increments the comment's `like_count`. -/
def commentLike (db : DB) (now : Int) (commentId userId : Int) : Except Err DB :=
  match findComment db commentId with
  | none => throw Err.commentNotFound
  | some _ =>
    let count := (db.commentLikes.filter
      (fun l => l.commentId = commentId ∧ l.userId = userId)).length
    if count > 0 then throw Err.alreadyLiked
    else
      let like : CommentLike :=
        { id := db.nextId, commentId := commentId, userId := userId, createdAt := now }
      let db := { db with
        commentLikes := db.commentLikes ++ [like],
        nextId := db.nextId + 1 }
      pure (bumpCommentLikeCount db commentId 1)

/-- `CommentDAO.UnlikeComment`: checks the comment exists, then in one
transaction checks the ledger for `(commentID, userID)` — rejecting with
`comment not liked by user` when absent — deletes the like row(s) and
decrements the comment's `like_count`. -/
def commentUnlike (db : DB) (commentId userId : Int) : Except Err DB :=
  match findComment db commentId with
  | none => throw Err.commentNotFound
  | some _ =>
    let count := (db.commentLikes.filter
      (fun l => l.commentId = commentId ∧ l.userId = userId)).length
    if count = 0 then throw Err.notLiked
    else
      let db := { db with
        commentLikes := db.commentLikes.filter
          (fun l => ¬ (l.commentId = commentId ∧ l.userId = userId)) }
      pure (bumpCommentLikeCount db commentId (-1))

/-- Hydrated comment as returned by read operations: the stored row plus
the viewer's liked flag and the recursively fetched replies (`UserInfo`
omitted, see the header note). -/
structure CommentTree where
  row : CommentRow
  liked : Bool
  replies : List CommentTree
  deriving Repr

/-- Hydrated post as returned by `PostDAO.GetByID`. -/
structure PostView where
  row : PostRow
  images : List PostImage
  liked : Bool
  deriving Repr, DecidableEq

/-- `ORDER BY created_at ASC` on comment rows (stable sort). -/
def sortByCreatedAsc (l : List CommentRow) : List CommentRow :=
  List.insertionSort (fun a b => a.createdAt ≤ b.createdAt) l

/-- `ORDER BY created_at DESC` on comment rows (stable sort). -/
def sortByCreatedDesc (l : List CommentRow) : List CommentRow :=
  List.insertionSort (fun a b => b.createdAt ≤ a.createdAt) l

/-- `ORDER BY display_order` on post images (stable sort). -/
def sortByDisplayOrder (l : List PostImage) : List PostImage :=
  List.insertionSort (fun a b => a.displayOrder ≤ b.displayOrder) l

/-- Whether `userId` has a like row for comment `cid`
(`COUNT(*) ... WHERE comment_id = ? AND user_id = ? > 0`). -/
def commentLikedBy (db : DB) (cid userId : Int) : Bool :=
  0 < (db.commentLikes.filter (fun l => l.commentId = cid ∧ l.userId = userId)).length

/-- `CommentDAO.GetReplies`: loads the direct replies of `commentID`
ordered by creation time ascending, sets each reply's liked flag, and —
whenever the reply's level is `< 3` — recursively fetches its own
replies the same way (a level-3 reply keeps a nil reply list).  The Go
recursion is unbounded; `fuel` bounds the depth and suffices at every
call site whenever levels are consistent (every reachable store). -/
def getReplies (fuel : Nat) (db : DB) (commentId currentUserId : Int) :
    List CommentTree :=
  match fuel with
  | 0 => []
  | fuel + 1 =>
    let rows := sortByCreatedAsc (db.comments.filter (fun c => c.parentId = some commentId))
    rows.map (fun r =>
      { row := r, liked := commentLikedBy db r.id currentUserId,
        replies := if r.level < 3 then getReplies fuel db r.id currentUserId else [] })

/-- `CommentDAO.ListComments`: counts and pages only the post's top-level
comments (`post_id = ? AND level = 0`), ordered by creation time
descending with offset `(page-1)*pageSize` and limit `pageSize`; each
returned comment carries its liked flag and its full reply subtree. -/
def listComments (db : DB) (postId : Int) (page pageSize : Int)
    (currentUserId : Int) : List CommentTree × Int :=
  let matching := db.comments.filter (fun c => c.postId = postId ∧ c.level = 0)
  let total : Int := matching.length
  let offset := (page - 1) * pageSize
  let pageRows := ((sortByCreatedDesc matching).drop offset.toNat).take pageSize.toNat
  let result := pageRows.map (fun r =>
    { row := r, liked := commentLikedBy db r.id currentUserId,
      replies := getReplies (db.comments.length + 1) db r.id currentUserId })
  (result, total)

/-- `PostDAO.Create`, as invoked by `CreatePostHandler`: the handler
builds `Post{UserID, Content}` (all counters keep Go's zero value 0);
the DAO, in one transaction, inserts the post row and — when image paths
were given — bulk-inserts one `PostImage` per path referencing the new
post id, with `display_order` equal to the path's input position.
Returns the new post's id. -/
def postCreate (db : DB) (now : Int) (userId : Int) (content : String)
    (imagePaths : List String) : Except Err (DB × Int) :=
  let post : PostRow :=
    { id := db.nextId, userId := userId, content := content, viewCount := 0,
      likeCount := 0, commentCount := 0, createdAt := now, updatedAt := now }
  let db1 := { db with posts := db.posts ++ [post], nextId := db.nextId + 1 }
  let db2 :=
    if imagePaths.length > 0 then
      let images := (List.range imagePaths.length).zip imagePaths |>.map
        (fun p =>
          { id := db1.nextId + p.1, postId := post.id, imagePath := p.2,
            displayOrder := (p.1 : Int), createdAt := now : PostImage })
      { db1 with postImages := db1.postImages ++ images,
                 nextId := db1.nextId + imagePaths.length }
    else db1
  pure (db2, post.id)

/-- Whether `userId` has a like row for post `pid`. -/
def postLikedBy (db : DB) (pid userId : Int) : Bool :=
  0 < (db.postLikes.filter (fun l => l.postId = pid ∧ l.userId = userId)).length

/-- `PostDAO.GetByID`: loads the post (`post not found` if absent), its
images ordered by display order, and the viewer's liked flag; then
increments the post's `view_count` by 1 (best-effort column update).
Returns the hydrated view (carrying the pre-increment counters, as the
Go code reads the row before the update) and the new store. -/
def postGetByID (db : DB) (id currentUserId : Int) :
    Except Err (PostView × DB) :=
  match findPost db id with
  | none => throw Err.postNotFound
  | some post =>
    let images := sortByDisplayOrder (db.postImages.filter (fun i => i.postId = id))
    let view : PostView :=
      { row := post, images := images, liked := postLikedBy db id currentUserId }
    pure (view, bumpViewCount db id 1)

/-- `PostDAO.Update`: replaces the content and bumps the updated
timestamp of the post row with the given id. -/
def postUpdate (db : DB) (now : Int) (id : Int) (content : String) : DB :=
  { db with posts := db.posts.map (fun p =>
      if p.id = id then { p with content := content, updatedAt := now } else p) }

/-- `PostDAO.Delete`: in one transaction deletes the post's images, its
post-like rows, all its comments and their like rows (via
`CommentDAO.DeleteAllForPost`), and the post row itself.  No existence
check is performed — a missing post is not an error. -/
def postDelete (db : DB) (id : Int) : Except Err DB :=
  let db := { db with postImages := db.postImages.filter (fun i => ¬ i.postId = id) }
  let db := { db with postLikes := db.postLikes.filter (fun l => ¬ l.postId = id) }
  let db := deleteAllForPost db id
  let db := { db with posts := db.posts.filter (fun p => ¬ p.id = id) }
  pure db

/-- `PostDAO.LikePost`: checks the post exists, then in one transaction
checks the ledger for `(postID, userID)` — rejecting with
`post already liked by user` when present — inserts the like row and
increments the post's `like_count`. -/
def postLike (db : DB) (now : Int) (postId userId : Int) : Except Err DB :=
  match findPost db postId with
  | none => throw Err.postNotFound
  | some _ =>
    let count := (db.postLikes.filter
      (fun l => l.postId = postId ∧ l.userId = userId)).length
    if count > 0 then throw Err.alreadyLiked
    else
      let like : PostLike :=
        { id := db.nextId, postId := postId, userId := userId, createdAt := now }
      let db := { db with
        postLikes := db.postLikes ++ [like],
        nextId := db.nextId + 1 }
      pure (bumpPostLikeCount db postId 1)

/-- `PostDAO.UnlikePost`: checks the post exists, then in one transaction
checks the ledger for `(postID, userID)` — rejecting with
`post not liked by user` when absent — deletes the like row(s) and
decrements the post's `like_count`. -/
def postUnlike (db : DB) (postId userId : Int) : Except Err DB :=
  match findPost db postId with
  | none => throw Err.postNotFound
  | some _ =>
    let count := (db.postLikes.filter
      (fun l => l.postId = postId ∧ l.userId = userId)).length
    if count = 0 then throw Err.notLiked
    else
      let db := { db with
        postLikes := db.postLikes.filter
          (fun l => ¬ (l.postId = postId ∧ l.userId = userId)) }
      pure (bumpPostLikeCount db postId (-1))

/-- The mutating operations of the engine, as reachable through the HTTP
handlers (pure reads such as `ListComments` and `ListPosts` change no
state and need no step). -/
inductive Op where
  | createPost (userId : Int) (content : String) (imagePaths : List String)
  | updatePost (id : Int) (content : String)
  | deletePost (id : Int)
  | likePost (postId userId : Int)
  | unlikePost (postId userId : Int)
  | viewPost (id currentUserId : Int)
  | createComment (postId userId : Int) (parentId : Option Int) (content : String)
  | deleteComment (id : Int)
  | likeComment (commentId userId : Int)
  | unlikeComment (commentId userId : Int)
  deriving Repr, DecidableEq

/-- One engine step at wall-clock time `now`: a failed (rolled back)
operation leaves the store unchanged. -/
def applyOp (op : Op) (now : Int) (db : DB) : DB :=
  match op with
  | .createPost u c imgs =>
    match postCreate db now u c imgs with
    | .ok (db', _) => db' | .error _ => db
  | .updatePost id c => postUpdate db now id c
  | .deletePost id =>
    match postDelete db id with
    | .ok db' => db' | .error _ => db
  | .likePost p u =>
    match postLike db now p u with
    | .ok db' => db' | .error _ => db
  | .unlikePost p u =>
    match postUnlike db p u with
    | .ok db' => db' | .error _ => db
  | .viewPost id viewer =>
    match postGetByID db id viewer with
    | .ok (_, db') => db' | .error _ => db
  | .createComment p u parent c =>
    match commentCreate db now p u parent c with
    | .ok (db', _) => db' | .error _ => db
  | .deleteComment id =>
    match commentDelete db id with
    | .ok db' => db' | .error _ => db
  | .likeComment cid u =>
    match commentLike db now cid u with
    | .ok db' => db' | .error _ => db
  | .unlikeComment cid u =>
    match commentUnlike db cid u with
    | .ok db' => db' | .error _ => db

/-- Stores reachable from the empty store by engine steps. -/
inductive Reachable : DB → Prop where
  | init : Reachable DB.empty
  | step (op : Op) (now : Int) {db : DB} : Reachable db → Reachable (applyOp op now db)

/-! ## General list helpers -/

theorem find?_map_comm {α : Type} (l : List α) (p : α → Bool) (f : α → α)
    (h : ∀ a, p (f a) = p a) : (l.map f).find? p = (l.find? p).map f := by
  induction l with
  | nil => rfl
  | cons a t ih =>
    by_cases hp : p a = true
    · simp [List.find?_cons, h, hp]
    · simp only [Bool.not_eq_true] at hp
      simp [List.find?_cons, h, hp, ih]

theorem filter_map_comm {α : Type} (l : List α) (p : α → Bool) (f : α → α)
    (h : ∀ a, p (f a) = p a) : (l.map f).filter p = (l.filter p).map f := by
  induction l with
  | nil => rfl
  | cons a t ih =>
    by_cases hp : p a = true
    · simp [List.filter_cons, h, hp, ih]
    · simp only [Bool.not_eq_true] at hp
      simp [List.filter_cons, h, hp, ih]

/-! ## C2 — creating a comment under a level-3 parent -/

/-- C2: when the parent of a comment-creation request has level 3 (so the
new comment's level `parent.level + 1` would exceed 3), `CommentDAO.Create`
fails with `MaxNestingExceeded`, and the engine state is unchanged: no
comment row is inserted, no `reply_count` is changed, no `comment_count`
is changed. -/
theorem commentCreate_maxNesting_rejected (db : DB) (now postId userId pid : Int)
    (content : String) (parent : CommentRow)
    (hfind : findComment db pid = some parent) (hlvl : parent.level = 3) :
    commentCreate db now postId userId (some pid) content =
      Except.error Err.maxNestingExceeded ∧
    applyOp (Op.createComment postId userId (some pid) content) now db = db := by
  have hc : commentCreate db now postId userId (some pid) content =
      Except.error Err.maxNestingExceeded := by
    simp [commentCreate, hfind, hlvl, throw, throwThe, MonadExceptOf.throw,
      Except.map, Functor.map]
  exact ⟨hc, by simp [applyOp, hc]⟩

/-- A store holding one post (id 1) and a chain of four comments
(ids 2,3,4,5 at levels 0..3), built by engine steps. -/
def chain4Db : DB :=
  applyOp (Op.createComment 1 10 (some 4) "d") 104
    (applyOp (Op.createComment 1 10 (some 3) "c") 103
      (applyOp (Op.createComment 1 10 (some 2) "b") 102
        (applyOp (Op.createComment 1 10 none "a") 101
          (applyOp (Op.createPost 10 "p" []) 100 DB.empty))))

theorem commentCreate_maxNesting_rejected_witness :
    commentCreate chain4Db 105 1 10 (some 5) "e" =
      Except.error Err.maxNestingExceeded ∧
    applyOp (Op.createComment 1 10 (some 5) "e") 105 chain4Db = chain4Db :=
  commentCreate_maxNesting_rejected chain4Db 105 1 10 5 "e"
    { id := 5, postId := 1, userId := 10, parentId := some 4, content := "d",
      likeCount := 0, replyCount := 0, level := 3, createdAt := 104,
      updatedAt := 104 }
    (by decide) rfl

/-! ## C9 — creating a parentless comment under a missing post -/

/-- C9: a comment-creation request with no parent whose post id matches no
post row succeeds anyway: the comment row is inserted (at level 0), no
`PostNotFound`-style error is returned, and the post `comment_count`
update affects no row, so the posts table (and every other table) is
unchanged. -/
theorem commentCreate_missing_post_ok (db : DB) (now postId userId : Int)
    (content : String) (hpost : findPost db postId = none) :
    commentCreate db now postId userId none content =
      Except.ok ({ db with
        comments := db.comments ++
          [{ id := db.nextId, postId := postId,
             userId := userId, parentId := none, content := content,
             likeCount := 0, replyCount := 0, level := 0, createdAt := now,
             updatedAt := now }],
        nextId := db.nextId + 1 }, db.nextId) := by
  have hnone : ∀ p ∈ db.posts, ¬ (p.id = postId) := by
    simpa [findPost, List.find?_eq_none] using hpost
  simp only [commentCreate, bumpCommentCount, pure, Except.pure, bind,
    Except.bind]
  congr 2
  have : db.posts.map (fun p =>
      if p.id = postId then { p with commentCount := p.commentCount + 1 } else p)
      = db.posts.map id := by
    apply List.map_congr_left
    intro p hp
    simp [hnone p hp]
  simp [this]

theorem commentCreate_missing_post_ok_witness :
    commentCreate DB.empty 50 7 1 none "orphan" =
      Except.ok ({ DB.empty with
        comments :=
          [{ id := 1, postId := 7, userId := 1, parentId := none,
             content := "orphan", likeCount := 0, replyCount := 0, level := 0,
             createdAt := 50, updatedAt := 50 }],
        nextId := 2 }, 1) :=
  commentCreate_missing_post_ok DB.empty 50 7 1 "orphan" rfl

/-! ## C8 — post creation with images -/

/-- Closed form of `postCreate`: it always succeeds, appending the post row
and one image row per path (the `if imagePaths.length > 0` guard in the
source is observationally irrelevant: zero paths bulk-insert zero rows). -/
theorem postCreate_eq (db : DB) (now userId : Int) (content : String)
    (imagePaths : List String) :
    postCreate db now userId content imagePaths =
      Except.ok ({ db with
        posts := db.posts ++
          [{ id := db.nextId, userId := userId, content := content,
             viewCount := 0, likeCount := 0, commentCount := 0,
             createdAt := now, updatedAt := now }],
        postImages := db.postImages ++
          ((List.range imagePaths.length).zip imagePaths).map
            (fun p => { id := db.nextId + 1 + (p.1 : Int), postId := db.nextId,
                        imagePath := p.2, displayOrder := (p.1 : Int),
                        createdAt := now }),
        nextId := db.nextId + 1 + imagePaths.length }, db.nextId) := by
  cases imagePaths with
  | nil => simp [postCreate, pure, Except.pure]
  | cons a t =>
    simp only [postCreate, List.length_cons, pure, Except.pure]
    norm_num

/-- C8: creating a post with image path list `[p0..p(n-1)]` inserts the
post row with zero counters and exactly `n` image rows referencing the
new post id, the image for `pi` carrying `display_order = i` (input order
preserved); the whole insertion is one atomic success (no partial state
is ever returned). -/
theorem postCreate_inserts_post_and_images (db : DB) (now userId : Int)
    (content : String) (imagePaths : List String) :
    ∃ db',
      postCreate db now userId content imagePaths = Except.ok (db', db.nextId) ∧
      db'.posts = db.posts ++
        [{ id := db.nextId, userId := userId, content := content,
           viewCount := 0, likeCount := 0, commentCount := 0,
           createdAt := now, updatedAt := now }] ∧
      db'.postImages.length = db.postImages.length + imagePaths.length ∧
      (∀ i : Nat, ∀ path, imagePaths[i]? = some path →
        db'.postImages[db.postImages.length + i]? =
          some { id := db.nextId + 1 + (i : Int), postId := db.nextId,
                 imagePath := path, displayOrder := (i : Int),
                 createdAt := now }) ∧
      db'.comments = db.comments ∧ db'.commentLikes = db.commentLikes ∧
      db'.postLikes = db.postLikes := by
  refine ⟨_, postCreate_eq db now userId content imagePaths, rfl, ?_, ?_, rfl, rfl, rfl⟩
  · simp [List.length_zip]
  · intro i path hpath
    have hi : i < imagePaths.length := by
      by_contra hge
      simp [List.getElem?_eq_none (Nat.le_of_not_lt hge)] at hpath
    rw [List.getElem?_append_right (Nat.le_add_right _ _)]
    simp only [Nat.add_sub_cancel_left]
    rw [List.getElem?_map]
    have hz : ((List.range imagePaths.length).zip imagePaths)[i]? = some (i, path) := by
      rw [List.getElem?_zip_eq_some]
      exact ⟨by simp [List.getElem?_range, hi], hpath⟩
    rw [hz]
    rfl

theorem postCreate_inserts_post_and_images_witness :
    ∃ db',
      postCreate DB.empty 9 4 "hello" ["a.png", "b.png"] = Except.ok (db', 1) ∧
      db'.posts = [{ id := 1, userId := 4, content := "hello", viewCount := 0,
                     likeCount := 0, commentCount := 0, createdAt := 9,
                     updatedAt := 9 }] ∧
      db'.postImages.length = 0 + 2 ∧
      (∀ i : Nat, ∀ path, ["a.png", "b.png"][i]? = some path →
        db'.postImages[0 + i]? =
          some { id := 1 + 1 + (i : Int), postId := 1, imagePath := path,
                 displayOrder := (i : Int), createdAt := 9 }) ∧
      db'.comments = [] ∧ db'.commentLikes = [] ∧ db'.postLikes = [] := by
  have h := postCreate_inserts_post_and_images DB.empty 9 4 "hello" ["a.png", "b.png"]
  simpa [DB.empty] using h

/-! ## C7 — GetByID increments view_count and nothing else -/

/-- C7: for an existing post, `PostDAO.GetByID` increments that post's
`view_count` by exactly 1 and changes nothing else: every other stored
field of the post, every other post row, and the image, like, comment
and comment-like tables are untouched by the read. -/
theorem postGetByID_bumps_only_view_count (db : DB) (id viewer : Int)
    (p : PostRow) (hfind : findPost db id = some p) :
    ∃ view db', postGetByID db id viewer = Except.ok (view, db') ∧
      findPost db' id = some { p with viewCount := p.viewCount + 1 } ∧
      db'.posts = db.posts.map (fun q =>
        if q.id = id then { q with viewCount := q.viewCount + 1 } else q) ∧
      db'.postImages = db.postImages ∧ db'.postLikes = db.postLikes ∧
      db'.comments = db.comments ∧ db'.commentLikes = db.commentLikes ∧
      db'.nextId = db.nextId ∧
      view.row = p := by
  refine ⟨{ row := p,
            images := sortByDisplayOrder
              (db.postImages.filter (fun i => i.postId = id)),
            liked := postLikedBy db id viewer },
    bumpViewCount db id 1, ?_, ?_, rfl, rfl, rfl, rfl, rfl, rfl, rfl⟩
  · simp [postGetByID, hfind, pure, Except.pure]
  · show findPost (bumpViewCount db id 1) id = _
    unfold findPost bumpViewCount
    rw [show ({ db with posts := db.posts.map (fun q =>
        if q.id = id then { q with viewCount := q.viewCount + 1 } else q)
        : DB }).posts = db.posts.map (fun q =>
        if q.id = id then { q with viewCount := q.viewCount + 1 } else q)
      from rfl]
    rw [find?_map_comm]
    · unfold findPost at hfind
      rw [hfind]
      have hp : p.id = id := by
        have := List.find?_some hfind
        simpa using this
      simp [hp]
    · intro a
      by_cases h : a.id = id <;> simp [h]

theorem postGetByID_bumps_only_view_count_witness :
    ∃ view db',
      postGetByID chain4Db 1 10 = Except.ok (view, db') ∧
      findPost db' 1 =
        some { id := 1, userId := 10, content := "p", viewCount := 1,
               likeCount := 0, commentCount := 4, createdAt := 100,
               updatedAt := 100 } ∧
      db'.posts = chain4Db.posts.map (fun q =>
        if q.id = 1 then { q with viewCount := q.viewCount + 1 } else q) ∧
      db'.postImages = chain4Db.postImages ∧
      db'.postLikes = chain4Db.postLikes ∧
      db'.comments = chain4Db.comments ∧
      db'.commentLikes = chain4Db.commentLikes ∧
      db'.nextId = chain4Db.nextId ∧
      view.row = { id := 1, userId := 10, content := "p", viewCount := 0,
                   likeCount := 0, commentCount := 4, createdAt := 100,
                   updatedAt := 100 } :=
  postGetByID_bumps_only_view_count chain4Db 1 10
    { id := 1, userId := 10, content := "p", viewCount := 0, likeCount := 0,
      commentCount := 4, createdAt := 100, updatedAt := 100 } (by decide)

/-! ## C4 — the like/unlike contract on both ledgers -/

theorem findPost_bumpPostLikeCount (db : DB) (pid d : Int) :
    findPost (bumpPostLikeCount db pid d) pid =
      (findPost db pid).map (fun p => { p with likeCount := p.likeCount + d }) := by
  unfold findPost bumpPostLikeCount
  rw [show ({ db with posts := db.posts.map (fun p =>
      if p.id = pid then { p with likeCount := p.likeCount + d } else p)
      : DB }).posts = db.posts.map (fun p =>
      if p.id = pid then { p with likeCount := p.likeCount + d } else p)
    from rfl]
  rw [find?_map_comm]
  · cases h : db.posts.find? (fun p => p.id = pid) with
    | none => rfl
    | some p =>
      have hp : p.id = pid := by simpa using List.find?_some h
      simp [hp]
  · intro a
    by_cases h : a.id = pid <;> simp [h]

theorem findComment_bumpCommentLikeCount (db : DB) (cid d : Int) :
    findComment (bumpCommentLikeCount db cid d) cid =
      (findComment db cid).map (fun c => { c with likeCount := c.likeCount + d }) := by
  unfold findComment bumpCommentLikeCount
  rw [show ({ db with comments := db.comments.map (fun c =>
      if c.id = cid then { c with likeCount := c.likeCount + d } else c)
      : DB }).comments = db.comments.map (fun c =>
      if c.id = cid then { c with likeCount := c.likeCount + d } else c)
    from rfl]
  rw [find?_map_comm]
  · cases h : db.comments.find? (fun c => c.id = cid) with
    | none => rfl
    | some c =>
      have hc : c.id = cid := by simpa using List.find?_some h
      simp [hc]
  · intro a
    by_cases h : a.id = cid <;> simp [h]

theorem postLike_throw (db : DB) (now tid uid : Int) (p : PostRow)
    (hp : findPost db tid = some p)
    (hc : 0 < (db.postLikes.filter
      (fun l => l.postId = tid ∧ l.userId = uid)).length) :
    postLike db now tid uid = Except.error Err.alreadyLiked := by
  unfold postLike
  rw [hp, if_pos hc]
  rfl

theorem postLike_ok (db : DB) (now tid uid : Int) (p : PostRow)
    (hp : findPost db tid = some p)
    (hc : ¬ 0 < (db.postLikes.filter
      (fun l => l.postId = tid ∧ l.userId = uid)).length) :
    postLike db now tid uid = Except.ok (bumpPostLikeCount { db with
      postLikes := db.postLikes ++
        [{ id := db.nextId, postId := tid, userId := uid, createdAt := now }],
      nextId := db.nextId + 1 } tid 1) := by
  unfold postLike
  rw [hp, if_neg hc]
  rfl

theorem postUnlike_throw (db : DB) (tid uid : Int) (p : PostRow)
    (hp : findPost db tid = some p)
    (hc : (db.postLikes.filter
      (fun l => l.postId = tid ∧ l.userId = uid)).length = 0) :
    postUnlike db tid uid = Except.error Err.notLiked := by
  unfold postUnlike
  rw [hp, if_pos hc]
  rfl

theorem postUnlike_ok (db : DB) (tid uid : Int) (p : PostRow)
    (hp : findPost db tid = some p)
    (hc : ¬ (db.postLikes.filter
      (fun l => l.postId = tid ∧ l.userId = uid)).length = 0) :
    postUnlike db tid uid = Except.ok (bumpPostLikeCount { db with
      postLikes := db.postLikes.filter
        (fun l => ¬ (l.postId = tid ∧ l.userId = uid)) } tid (-1)) := by
  unfold postUnlike
  rw [hp, if_neg hc]
  rfl

theorem commentLike_throw (db : DB) (now tid uid : Int) (c : CommentRow)
    (hcf : findComment db tid = some c)
    (hc : 0 < (db.commentLikes.filter
      (fun l => l.commentId = tid ∧ l.userId = uid)).length) :
    commentLike db now tid uid = Except.error Err.alreadyLiked := by
  unfold commentLike
  rw [hcf, if_pos hc]
  rfl

theorem commentLike_ok (db : DB) (now tid uid : Int) (c : CommentRow)
    (hcf : findComment db tid = some c)
    (hc : ¬ 0 < (db.commentLikes.filter
      (fun l => l.commentId = tid ∧ l.userId = uid)).length) :
    commentLike db now tid uid = Except.ok (bumpCommentLikeCount { db with
      commentLikes := db.commentLikes ++
        [{ id := db.nextId, commentId := tid, userId := uid, createdAt := now }],
      nextId := db.nextId + 1 } tid 1) := by
  unfold commentLike
  rw [hcf, if_neg hc]
  rfl

theorem commentUnlike_throw (db : DB) (tid uid : Int) (c : CommentRow)
    (hcf : findComment db tid = some c)
    (hc : (db.commentLikes.filter
      (fun l => l.commentId = tid ∧ l.userId = uid)).length = 0) :
    commentUnlike db tid uid = Except.error Err.notLiked := by
  unfold commentUnlike
  rw [hcf, if_pos hc]
  rfl

theorem commentUnlike_ok (db : DB) (tid uid : Int) (c : CommentRow)
    (hcf : findComment db tid = some c)
    (hc : ¬ (db.commentLikes.filter
      (fun l => l.commentId = tid ∧ l.userId = uid)).length = 0) :
    commentUnlike db tid uid = Except.ok (bumpCommentLikeCount { db with
      commentLikes := db.commentLikes.filter
        (fun l => ¬ (l.commentId = tid ∧ l.userId = uid)) } tid (-1)) := by
  unfold commentUnlike
  rw [hcf, if_neg hc]
  rfl

/-- C4: the one-like-per-user-per-target contract, for both ledgers.
For an existing target (post or comment) and user: Like fails with
`AlreadyLiked` when a ledger row for (target, user) exists and Unlike
fails with `NotLiked` when none does, both failures leaving the whole
store unchanged; a successful Like appends exactly one ledger row and
increments the target's `like_count` by 1, a successful Unlike deletes
the (target, user) ledger row(s) and decrements `like_count` by 1,
neither touching any other table. -/
theorem like_unlike_ledger_contract (db : DB) (now tid uid : Int) :
    (∀ p, findPost db tid = some p →
      ((postLikedBy db tid uid = true →
          postLike db now tid uid = Except.error Err.alreadyLiked ∧
          applyOp (Op.likePost tid uid) now db = db) ∧
       (postLikedBy db tid uid = false →
          ∃ db', postLike db now tid uid = Except.ok db' ∧
            db'.postLikes = db.postLikes ++
              [{ id := db.nextId, postId := tid, userId := uid,
                 createdAt := now }] ∧
            findPost db' tid = some { p with likeCount := p.likeCount + 1 } ∧
            db'.postImages = db.postImages ∧ db'.comments = db.comments ∧
            db'.commentLikes = db.commentLikes) ∧
       (postLikedBy db tid uid = false →
          postUnlike db tid uid = Except.error Err.notLiked ∧
          applyOp (Op.unlikePost tid uid) now db = db) ∧
       (postLikedBy db tid uid = true →
          ∃ db', postUnlike db tid uid = Except.ok db' ∧
            db'.postLikes = db.postLikes.filter
              (fun l => ¬ (l.postId = tid ∧ l.userId = uid)) ∧
            findPost db' tid = some { p with likeCount := p.likeCount - 1 } ∧
            db'.postImages = db.postImages ∧ db'.comments = db.comments ∧
            db'.commentLikes = db.commentLikes))) ∧
    (∀ c, findComment db tid = some c →
      ((commentLikedBy db tid uid = true →
          commentLike db now tid uid = Except.error Err.alreadyLiked ∧
          applyOp (Op.likeComment tid uid) now db = db) ∧
       (commentLikedBy db tid uid = false →
          ∃ db', commentLike db now tid uid = Except.ok db' ∧
            db'.commentLikes = db.commentLikes ++
              [{ id := db.nextId, commentId := tid, userId := uid,
                 createdAt := now }] ∧
            findComment db' tid = some { c with likeCount := c.likeCount + 1 } ∧
            db'.postImages = db.postImages ∧ db'.posts = db.posts ∧
            db'.postLikes = db.postLikes) ∧
       (commentLikedBy db tid uid = false →
          commentUnlike db tid uid = Except.error Err.notLiked ∧
          applyOp (Op.unlikeComment tid uid) now db = db) ∧
       (commentLikedBy db tid uid = true →
          ∃ db', commentUnlike db tid uid = Except.ok db' ∧
            db'.commentLikes = db.commentLikes.filter
              (fun l => ¬ (l.commentId = tid ∧ l.userId = uid)) ∧
            findComment db' tid = some { c with likeCount := c.likeCount - 1 } ∧
            db'.postImages = db.postImages ∧ db'.posts = db.posts ∧
            db'.postLikes = db.postLikes))) := by
  constructor
  · intro p hp
    refine ⟨?_, ?_, ?_, ?_⟩
    · intro hliked
      have hc : 0 < (db.postLikes.filter
          (fun l => l.postId = tid ∧ l.userId = uid)).length := by
        simpa [postLikedBy] using hliked
      have herr := postLike_throw db now tid uid p hp hc
      exact ⟨herr, by simp [applyOp, herr]⟩
    · intro hnot
      have hc : ¬ 0 < (db.postLikes.filter
          (fun l => l.postId = tid ∧ l.userId = uid)).length := by
        simpa [postLikedBy] using hnot
      refine ⟨_, postLike_ok db now tid uid p hp hc, rfl, ?_, rfl, rfl, rfl⟩
      rw [findPost_bumpPostLikeCount]
      have hsame : findPost { db with
          postLikes := db.postLikes ++
            [{ id := db.nextId, postId := tid, userId := uid,
               createdAt := now }],
          nextId := db.nextId + 1 } tid = some p := hp
      rw [hsame]
      rfl
    · intro hnot
      have hc : (db.postLikes.filter
          (fun l => l.postId = tid ∧ l.userId = uid)).length = 0 := by
        have := hnot
        simp only [postLikedBy, decide_eq_false_iff_not] at this
        omega
      have herr := postUnlike_throw db tid uid p hp hc
      exact ⟨herr, by simp [applyOp, herr]⟩
    · intro hliked
      have hc : ¬ (db.postLikes.filter
          (fun l => l.postId = tid ∧ l.userId = uid)).length = 0 := by
        have := hliked
        simp only [postLikedBy, decide_eq_true_eq] at this
        omega
      refine ⟨_, postUnlike_ok db tid uid p hp hc, rfl, ?_, rfl, rfl, rfl⟩
      rw [findPost_bumpPostLikeCount]
      have hsame : findPost { db with
          postLikes := db.postLikes.filter
            (fun l => ¬ (l.postId = tid ∧ l.userId = uid)) } tid = some p := hp
      rw [hsame]
      have harith : p.likeCount + (-1) = p.likeCount - 1 := by omega
      simp [harith]
  · intro c hcf
    refine ⟨?_, ?_, ?_, ?_⟩
    · intro hliked
      have hc : 0 < (db.commentLikes.filter
          (fun l => l.commentId = tid ∧ l.userId = uid)).length := by
        simpa [commentLikedBy] using hliked
      have herr := commentLike_throw db now tid uid c hcf hc
      exact ⟨herr, by simp [applyOp, herr]⟩
    · intro hnot
      have hc : ¬ 0 < (db.commentLikes.filter
          (fun l => l.commentId = tid ∧ l.userId = uid)).length := by
        simpa [commentLikedBy] using hnot
      refine ⟨_, commentLike_ok db now tid uid c hcf hc, rfl, ?_, rfl, rfl, rfl⟩
      rw [findComment_bumpCommentLikeCount]
      have hsame : findComment { db with
          commentLikes := db.commentLikes ++
            [{ id := db.nextId, commentId := tid, userId := uid,
               createdAt := now }],
          nextId := db.nextId + 1 } tid = some c := hcf
      rw [hsame]
      rfl
    · intro hnot
      have hc : (db.commentLikes.filter
          (fun l => l.commentId = tid ∧ l.userId = uid)).length = 0 := by
        have := hnot
        simp only [commentLikedBy, decide_eq_false_iff_not] at this
        omega
      have herr := commentUnlike_throw db tid uid c hcf hc
      exact ⟨herr, by simp [applyOp, herr]⟩
    · intro hliked
      have hc : ¬ (db.commentLikes.filter
          (fun l => l.commentId = tid ∧ l.userId = uid)).length = 0 := by
        have := hliked
        simp only [commentLikedBy, decide_eq_true_eq] at this
        omega
      refine ⟨_, commentUnlike_ok db tid uid c hcf hc, rfl, ?_, rfl, rfl, rfl⟩
      rw [findComment_bumpCommentLikeCount]
      have hsame : findComment { db with
          commentLikes := db.commentLikes.filter
            (fun l => ¬ (l.commentId = tid ∧ l.userId = uid)) } tid = some c := hcf
      rw [hsame]
      have harith : c.likeCount + (-1) = c.likeCount - 1 := by omega
      simp [harith]

/-- `chain4Db` after user 20 likes post 1 and comment 5. -/
def likedDb : DB :=
  applyOp (Op.likeComment 5 20) 106 (applyOp (Op.likePost 1 20) 105 chain4Db)

theorem like_unlike_ledger_contract_witness :
    postLike likedDb 200 1 20 = Except.error Err.alreadyLiked ∧
    applyOp (Op.likePost 1 20) 200 likedDb = likedDb :=
  ((like_unlike_ledger_contract likedDb 200 1 20).1
    { id := 1, userId := 10, content := "p", viewCount := 0, likeCount := 1,
      commentCount := 4, createdAt := 100, updatedAt := 100 }
    (by decide)).1 (by decide)

/-! ## C5 — successful comment creation and its three effects -/

theorem find?_append_of_found {α : Type} (l1 l2 : List α) (p : α → Bool) (x : α)
    (h : l1.find? p = some x) : (l1 ++ l2).find? p = some x := by
  rw [List.find?_append, h]
  rfl

theorem findComment_bumpReplyCount (db : DB) (cid d : Int) :
    findComment (bumpReplyCount db cid d) cid =
      (findComment db cid).map
        (fun c => { c with replyCount := c.replyCount + d }) := by
  unfold findComment bumpReplyCount
  rw [show ({ db with comments := db.comments.map (fun c =>
      if c.id = cid then { c with replyCount := c.replyCount + d } else c)
      : DB }).comments = db.comments.map (fun c =>
      if c.id = cid then { c with replyCount := c.replyCount + d } else c)
    from rfl]
  rw [find?_map_comm]
  · cases h : db.comments.find? (fun c => c.id = cid) with
    | none => rfl
    | some c =>
      have hc : c.id = cid := by simpa using List.find?_some h
      simp [hc]
  · intro a
    by_cases h : a.id = cid <;> simp [h]

theorem findPost_bumpCommentCount (db : DB) (pid d : Int) :
    findPost (bumpCommentCount db pid d) pid =
      (findPost db pid).map
        (fun p => { p with commentCount := p.commentCount + d }) := by
  unfold findPost bumpCommentCount
  rw [show ({ db with posts := db.posts.map (fun p =>
      if p.id = pid then { p with commentCount := p.commentCount + d } else p)
      : DB }).posts = db.posts.map (fun p =>
      if p.id = pid then { p with commentCount := p.commentCount + d } else p)
    from rfl]
  rw [find?_map_comm]
  · cases h : db.posts.find? (fun p => p.id = pid) with
    | none => rfl
    | some p =>
      have hp : p.id = pid := by simpa using List.find?_some h
      simp [hp]
  · intro a
    by_cases h : a.id = pid <;> simp [h]

/-- The comment row a successful `CommentDAO.Create` with parent `pid`
inserts when the loaded parent has level `plvl` (proof-side name for the
transaction's insert). -/
def createdRow (db : DB) (now postId userId pid plvl : Int)
    (content : String) : CommentRow :=
  { id := db.nextId, postId := postId, userId := userId,
    parentId := some pid, content := content, likeCount := 0,
    replyCount := 0, level := plvl + 1, createdAt := now, updatedAt := now }

/-- The committed state of that transaction (proof-side name). -/
def createdDb (db : DB) (now postId userId pid plvl : Int)
    (content : String) : DB :=
  bumpCommentCount { bumpReplyCount db pid 1 with
    comments := (bumpReplyCount db pid 1).comments ++
      [createdRow db now postId userId pid plvl content],
    nextId := db.nextId + 1 } postId 1

/-- Closed form of a successful `CommentDAO.Create` with a parent whose
level admits one more nesting step. -/
theorem commentCreate_some_ok (db : DB) (now postId userId pid : Int)
    (content : String) (q : CommentRow)
    (hq : findComment db pid = some q) (hlvl : ¬ q.level + 1 > 3) :
    commentCreate db now postId userId (some pid) content =
      Except.ok (createdDb db now postId userId pid q.level content,
        db.nextId) := by
  simp only [commentCreate, hq]
  rw [if_neg hlvl]
  rfl

/-- Spec invariant 2 at one post: the post's `comment_count` equals the
number of comment rows (all levels) referencing it. -/
def postCommentCountOK (db : DB) (pid : Int) : Prop :=
  ∀ p, findPost db pid = some p →
    p.commentCount = ((db.comments.filter (fun c => c.postId = pid)).length : Int)

/-- Spec invariant 3 at one comment: the comment's `reply_count` equals
its number of direct children. -/
def replyCountOK (db : DB) (cid : Int) : Prop :=
  ∀ c, findComment db cid = some c →
    c.replyCount = ((db.comments.filter
      (fun x => x.parentId = some cid)).length : Int)

/-- C5: a successful comment creation under existing post `P` with parent
`Q` performs exactly its three effects in one atomic step: `Q`'s
`reply_count` rises by 1, the comment row is appended, and `P`'s
`comment_count` rises by 1 — preserving the `comment_count` and
`reply_count` counting invariants; when instead the operation fails, the
engine state is unchanged. -/
theorem commentCreate_success_effects (db : DB) (now pidP u qid : Int)
    (content : String) (p : PostRow) (q : CommentRow)
    (hp : findPost db pidP = some p) (hq : findComment db qid = some q)
    (hlvl : ¬ q.level + 1 > 3) :
    ∃ db', commentCreate db now pidP u (some qid) content =
        Except.ok (db', db.nextId) ∧
      findComment db' qid = some { q with replyCount := q.replyCount + 1 } ∧
      findPost db' pidP = some { p with commentCount := p.commentCount + 1 } ∧
      db'.comments.length = db.comments.length + 1 ∧
      db'.postLikes = db.postLikes ∧ db'.commentLikes = db.commentLikes ∧
      db'.postImages = db.postImages ∧
      (postCommentCountOK db pidP → postCommentCountOK db' pidP) ∧
      (replyCountOK db qid → replyCountOK db' qid) ∧
      (∀ e, commentCreate db now pidP u (some qid) content = Except.error e →
        applyOp (Op.createComment pidP u (some qid) content) now db = db) := by
  have hfindC : findComment (createdDb db now pidP u qid q.level content) qid =
      some { q with replyCount := q.replyCount + 1 } := by
    have h1 : findComment (bumpReplyCount db qid 1) qid =
        some { q with replyCount := q.replyCount + 1 } := by
      rw [findComment_bumpReplyCount, hq]
      rfl
    exact find?_append_of_found _ _ _ _ h1
  have hfindP : findPost (createdDb db now pidP u qid q.level content) pidP =
      some { p with commentCount := p.commentCount + 1 } := by
    have step1 : findPost (createdDb db now pidP u qid q.level content) pidP =
        (findPost db pidP).map
          (fun r => { r with commentCount := r.commentCount + 1 }) := by
      unfold createdDb
      rw [findPost_bumpCommentCount]
      rfl
    rw [step1, hp]
    rfl
  have hfltP : ((createdDb db now pidP u qid q.level content).comments.filter
      (fun c => c.postId = pidP)).length =
      (db.comments.filter (fun c => c.postId = pidP)).length + 1 := by
    unfold createdDb createdRow
    simp only [bumpCommentCount, bumpReplyCount]
    rw [List.filter_append, filter_map_comm]
    · simp
    · intro a
      by_cases h : a.id = qid <;> simp [h]
  have hfltQ : ((createdDb db now pidP u qid q.level content).comments.filter
      (fun c => c.parentId = some qid)).length =
      (db.comments.filter (fun c => c.parentId = some qid)).length + 1 := by
    unfold createdDb createdRow
    simp only [bumpCommentCount, bumpReplyCount]
    rw [List.filter_append, filter_map_comm]
    · simp
    · intro a
      by_cases h : a.id = qid <;> simp [h]
  refine ⟨createdDb db now pidP u qid q.level content,
    commentCreate_some_ok db now pidP u qid content q hq hlvl,
    hfindC, hfindP, ?_, rfl, rfl, rfl, ?_, ?_, ?_⟩
  · unfold createdDb
    simp [bumpCommentCount, bumpReplyCount]
  · intro hOK p' hp'
    have hp'' : p' = { p with commentCount := p.commentCount + 1 } :=
      Option.some_injective _ (hp'.symm.trans hfindP)
    subst hp''
    rw [hfltP]
    have := hOK p hp
    push_cast
    omega
  · intro hOK c' hc'
    have hc'' : c' = { q with replyCount := q.replyCount + 1 } :=
      Option.some_injective _ (hc'.symm.trans hfindC)
    subst hc''
    rw [hfltQ]
    have := hOK q hq
    push_cast
    omega
  · intro e he
    simp [applyOp, he]

theorem commentCreate_success_effects_witness :
    ∃ db', commentCreate chain4Db 300 1 11 (some 4) "w" =
        Except.ok (db', chain4Db.nextId) ∧
      findComment db' 4 =
        some { id := 4, postId := 1, userId := 10, parentId := some 3,
               content := "c", likeCount := 0, replyCount := 2, level := 2,
               createdAt := 103, updatedAt := 103 } ∧
      findPost db' 1 =
        some { id := 1, userId := 10, content := "p", viewCount := 0,
               likeCount := 0, commentCount := 5, createdAt := 100,
               updatedAt := 100 } ∧
      db'.comments.length = chain4Db.comments.length + 1 ∧
      db'.postLikes = chain4Db.postLikes ∧
      db'.commentLikes = chain4Db.commentLikes ∧
      db'.postImages = chain4Db.postImages ∧
      (postCommentCountOK chain4Db 1 → postCommentCountOK db' 1) ∧
      (replyCountOK chain4Db 4 → replyCountOK db' 4) ∧
      (∀ e, commentCreate chain4Db 300 1 11 (some 4) "w" = Except.error e →
        applyOp (Op.createComment 1 11 (some 4) "w") 300 chain4Db = chain4Db) :=
  commentCreate_success_effects chain4Db 300 1 11 4 "w"
    { id := 1, userId := 10, content := "p", viewCount := 0, likeCount := 0,
      commentCount := 4, createdAt := 100, updatedAt := 100 }
    { id := 4, postId := 1, userId := 10, parentId := some 3, content := "c",
      likeCount := 0, replyCount := 1, level := 2, createdAt := 103,
      updatedAt := 103 }
    (by decide) (by decide) (by decide)

/-! ## C10 — deleting a missing post -/

/-- Closed form of `PostDAO.Delete`: it always succeeds, filtering out the
post's images, its like rows, the like rows of its comments, its comment
rows, and the post row; no existence check is performed. -/
theorem postDelete_eq (db : DB) (id : Int) :
    postDelete db id = Except.ok { db with
      postImages := db.postImages.filter (fun i => ¬ i.postId = id),
      postLikes := db.postLikes.filter (fun l => ¬ l.postId = id),
      commentLikes := db.commentLikes.filter (fun l =>
        ¬ l.commentId ∈ (db.comments.filter (fun c => c.postId = id)).map
          (fun c => c.id)),
      comments := db.comments.filter (fun c => ¬ c.postId = id),
      posts := db.posts.filter (fun p => ¬ p.id = id) } := rfl

/-- When no row of any table references post id `id`, the delete cascade
removes nothing. -/
theorem postDelete_noop (db : DB) (id : Int)
    (hpost : findPost db id = none)
    (himg : ∀ i ∈ db.postImages, ¬ i.postId = id)
    (hlik : ∀ l ∈ db.postLikes, ¬ l.postId = id)
    (hcom : ∀ c ∈ db.comments, ¬ c.postId = id) :
    postDelete db id = Except.ok db := by
  rw [postDelete_eq]
  have h1 : db.postImages.filter (fun i => ¬ i.postId = id) = db.postImages :=
    List.filter_eq_self.mpr (by intro a ha; simpa using himg a ha)
  have h2 : db.postLikes.filter (fun l => ¬ l.postId = id) = db.postLikes :=
    List.filter_eq_self.mpr (by intro a ha; simpa using hlik a ha)
  have h0 : db.comments.filter (fun c => c.postId = id) = [] := by
    rw [List.filter_eq_nil_iff]
    intro a ha
    simpa using hcom a ha
  have h4 : db.commentLikes.filter (fun l =>
      ¬ l.commentId ∈ (db.comments.filter (fun c => c.postId = id)).map
        (fun c => c.id)) = db.commentLikes := by
    rw [h0]
    simp
  have h3 : db.comments.filter (fun c => ¬ c.postId = id) = db.comments :=
    List.filter_eq_self.mpr (by intro a ha; simpa using hcom a ha)
  have h5 : db.posts.filter (fun p => ¬ p.id = id) = db.posts := by
    have := List.find?_eq_none.mp hpost
    exact List.filter_eq_self.mpr (by intro a ha; simpa using this a ha)
  rw [h1, h2, h4, h3, h5]

/-- A reachable store holding a single orphan comment whose `post_id` (7)
matches no post row. -/
def orphanDb : DB := applyOp (Op.createComment 7 1 none "orphan") 50 DB.empty

/-- `orphanDb` after `PostDAO.Delete(7)`. -/
def orphanDeletedDb : DB := applyOp (Op.deletePost 7) 60 orphanDb

/-- C10 counterexample: in the reachable store `orphanDb` the id 7 matches
no existing post, yet `PostDAO.Delete(7)` does NOT leave the state
unchanged — it deletes the orphan comment row referencing post 7.  The
claim "the cascade deletes nothing" is false as stated. -/
theorem postDelete_missing_post_changes_state :
    Reachable orphanDb ∧
    findPost orphanDb 7 = none ∧
    orphanDb.comments.length = 1 ∧
    postDelete orphanDb 7 = Except.ok orphanDeletedDb ∧
    orphanDeletedDb.comments = [] ∧
    ¬ orphanDeletedDb = orphanDb :=
  ⟨Reachable.step _ _ Reachable.init, by decide, by decide, rfl, by decide,
   by decide⟩

/-- C10 amended: `PostDAO.Delete` performs no existence check and never
reports NotFound — it always succeeds; when the id matches no post AND no
image, post-like or comment row references it, the state is unchanged;
and Delete is idempotent on every store. -/
theorem postDelete_missing_post_amended (db : DB) (id : Int) :
    (∃ db', postDelete db id = Except.ok db') ∧
    (findPost db id = none →
      (∀ i ∈ db.postImages, ¬ i.postId = id) →
      (∀ l ∈ db.postLikes, ¬ l.postId = id) →
      (∀ c ∈ db.comments, ¬ c.postId = id) →
      postDelete db id = Except.ok db) ∧
    (∀ db', postDelete db id = Except.ok db' →
      postDelete db' id = Except.ok db') := by
  refine ⟨⟨_, postDelete_eq db id⟩, postDelete_noop db id, ?_⟩
  intro db' hdel
  have hdb' : db' = { db with
      postImages := db.postImages.filter (fun i => ¬ i.postId = id),
      postLikes := db.postLikes.filter (fun l => ¬ l.postId = id),
      commentLikes := db.commentLikes.filter (fun l =>
        ¬ l.commentId ∈ (db.comments.filter (fun c => c.postId = id)).map
          (fun c => c.id)),
      comments := db.comments.filter (fun c => ¬ c.postId = id),
      posts := db.posts.filter (fun p => ¬ p.id = id) } := by
    have := (postDelete_eq db id).symm.trans hdel
    cases this
    rfl
  subst hdb'
  apply postDelete_noop
  · apply List.find?_eq_none.mpr
    intro a ha
    have := (List.mem_filter.mp ha).2
    simpa using this
  · intro i hi
    have := (List.mem_filter.mp hi).2
    simpa using this
  · intro l hl
    have := (List.mem_filter.mp hl).2
    simpa using this
  · intro c hc
    have := (List.mem_filter.mp hc).2
    simpa using this

theorem postDelete_missing_post_amended_witness :
    (∃ db', postDelete orphanDeletedDb 7 = Except.ok db') ∧
    (findPost orphanDeletedDb 7 = none →
      (∀ i ∈ orphanDeletedDb.postImages, ¬ i.postId = 7) →
      (∀ l ∈ orphanDeletedDb.postLikes, ¬ l.postId = 7) →
      (∀ c ∈ orphanDeletedDb.comments, ¬ c.postId = 7) →
      postDelete orphanDeletedDb 7 = Except.ok orphanDeletedDb) ∧
    (∀ db', postDelete orphanDeletedDb 7 = Except.ok db' →
      postDelete db' 7 = Except.ok db') :=
  postDelete_missing_post_amended orphanDeletedDb 7

/-! ## C1 — comment deletion undercounts the post's comment_count -/

/-- `likedDb` after `CommentDAO.Delete(2)` (comment 2 is the root of the
four-comment chain 2 ← 3 ← 4 ← 5, and comment 5 carries one like). -/
def chainDeletedDb : DB := applyOp (Op.deleteComment 2) 400 likedDb

/-- C1 fails on the code: deleting top-level comment 2, whose descendant
set is {3, 4, 5} (N = 3 descendants across three levels), removes all
N + 1 = 4 comment rows and every like row of the subtree, but decrements
the post's `comment_count` by only 2 — the DIRECT reply count (1) plus
one — instead of N + 1 = 4: `comment_count` ends at 2 although no comment
row is left.  `CommentDAO.Delete` counts `replyCount` with
`WHERE parent_id = id` (direct children only) while deleting the full
subtree, breaking spec invariant 2. -/
theorem commentDelete_undercounts_comment_count :
    Reachable likedDb ∧
    (findPost likedDb 1).map PostRow.commentCount = some 4 ∧
    likedDb.comments.length = 4 ∧
    likedDb.commentLikes.length = 1 ∧
    commentDelete likedDb 2 = Except.ok chainDeletedDb ∧
    chainDeletedDb.comments = [] ∧
    chainDeletedDb.commentLikes = [] ∧
    (findPost chainDeletedDb 1).map PostRow.commentCount = some 2 :=
  ⟨Reachable.step _ _ (Reachable.step _ _ (Reachable.step _ _
      (Reachable.step _ _ (Reachable.step _ _ (Reachable.step _ _
        (Reachable.step _ _ Reachable.init)))))),
   by decide, by decide, by decide, rfl, by decide, by decide, by decide⟩

/-! ## C3 — the nesting invariant over all reachable stores -/

/-- Spec invariant 1, row-wise over a comment table: a parentless comment
sits at level 0; a comment whose parent row is present sits exactly one
level below it; levels stay within [0, 3]. -/
def LevelInvRow (comments : List CommentRow) (c : CommentRow) : Prop :=
  (c.parentId = none → c.level = 0) ∧
  (∀ parent ∈ comments, c.parentId = some parent.id →
    c.level = parent.level + 1) ∧
  0 ≤ c.level ∧ c.level ≤ 3

/-- Spec invariant 1 over a whole comment table. -/
def LevelInvL (l : List CommentRow) : Prop := ∀ c ∈ l, LevelInvRow l c

/-- Spec invariant 1 over a store. -/
def LevelInv (db : DB) : Prop := LevelInvL db.comments

/-- Generated-id discipline of a comment table against the id source:
pairwise distinct ids, all below `nid`, and all parent references below
`nid` (so a future insert can never capture an existing parent pointer). -/
def IdsOKL (l : List CommentRow) (nid : Int) : Prop :=
  l.Pairwise (fun a b => ¬ a.id = b.id) ∧
  (∀ c ∈ l, c.id < nid) ∧
  (∀ c ∈ l, ∀ pid, c.parentId = some pid → pid < nid)

/-- Generated-id discipline of a store. -/
def IdsOK (db : DB) : Prop := IdsOKL db.comments db.nextId

/-- No engine step re-levels or re-parents a surviving comment row. -/
def StableFields (db db' : DB) : Prop :=
  ∀ c ∈ db.comments, ∀ c' ∈ db'.comments,
    c'.id = c.id → c'.level = c.level ∧ c'.parentId = c.parentId

/-- A field-update function that keeps id, level and parent pointer. -/
def KeepsIdLevelParent (f : CommentRow → CommentRow) : Prop :=
  ∀ c, (f c).id = c.id ∧ (f c).level = c.level ∧ (f c).parentId = c.parentId

/-- Every non-inserting engine step leaves the comment table a mapped
sublist of the old one (rows dropped by deletes, counter columns bumped
by updates) and never decreases the id source. -/
def TameStep (db db' : DB) : Prop :=
  db.nextId ≤ db'.nextId ∧
  ∃ (s : List CommentRow) (f : CommentRow → CommentRow),
    s.Sublist db.comments ∧ KeepsIdLevelParent f ∧
    db'.comments = s.map f

theorem eq_of_mem_pairwise_ne {l : List CommentRow}
    (hp : l.Pairwise (fun a b => ¬ a.id = b.id)) {a b : CommentRow}
    (ha : a ∈ l) (hb : b ∈ l) (h : a.id = b.id) : a = b := by
  induction l with
  | nil => cases ha
  | cons x t ih =>
    rcases List.pairwise_cons.mp hp with ⟨hx, ht⟩
    rcases List.mem_cons.mp ha with ha0 | ha1 <;>
      rcases List.mem_cons.mp hb with hb0 | hb1
    · rw [ha0, hb0]
    · exact absurd h (by rw [ha0]; exact hx b hb1)
    · exact absurd h.symm (by rw [hb0]; exact hx a ha1)
    · exact ih ht ha1 hb1

theorem levelInvL_sublist {s l : List CommentRow} (hs : s.Sublist l)
    (h : LevelInvL l) : LevelInvL s := by
  intro c hc
  rcases h c (hs.subset hc) with ⟨h0, h1, h2, h3⟩
  exact ⟨h0, fun parent hp hpid => h1 parent (hs.subset hp) hpid, h2, h3⟩

theorem levelInvL_map {l : List CommentRow} {f : CommentRow → CommentRow}
    (hf : KeepsIdLevelParent f) (h : LevelInvL l) : LevelInvL (l.map f) := by
  intro c' hc'
  rcases List.mem_map.mp hc' with ⟨c, hc, rfl⟩
  rcases h c hc with ⟨h0, h1, h2, h3⟩
  rcases hf c with ⟨hfid, hflvl, hfpar⟩
  refine ⟨?_, ?_, ?_, ?_⟩
  · intro hnone
    rw [hflvl]
    exact h0 (by rwa [hfpar] at hnone)
  · intro parent' hp' hpid
    rcases List.mem_map.mp hp' with ⟨d, hd, rfl⟩
    rcases hf d with ⟨hdid, hdlvl, _⟩
    rw [hflvl, hdlvl]
    rw [hfpar] at hpid
    rw [hdid] at hpid
    exact h1 d hd hpid
  · rwa [hflvl]
  · rwa [hflvl]

theorem idsOKL_sublist {s l : List CommentRow} {n n' : Int}
    (hs : s.Sublist l) (hn : n ≤ n') (h : IdsOKL l n) : IdsOKL s n' := by
  rcases h with ⟨hp, hb, hpb⟩
  refine ⟨hp.sublist hs, ?_, ?_⟩
  · intro c hc
    exact lt_of_lt_of_le (hb c (hs.subset hc)) hn
  · intro c hc pid hpid
    exact lt_of_lt_of_le (hpb c (hs.subset hc) pid hpid) hn

theorem idsOKL_map {l : List CommentRow} {n n' : Int}
    {f : CommentRow → CommentRow} (hf : KeepsIdLevelParent f) (hn : n ≤ n')
    (h : IdsOKL l n) : IdsOKL (l.map f) n' := by
  rcases h with ⟨hp, hb, hpb⟩
  refine ⟨?_, ?_, ?_⟩
  · rw [List.pairwise_map]
    refine hp.imp_of_mem ?_
    intro a b _ _ hab
    rw [(hf a).1, (hf b).1]
    exact hab
  · intro c' hc'
    rcases List.mem_map.mp hc' with ⟨c, hc, rfl⟩
    rw [(hf c).1]
    exact lt_of_lt_of_le (hb c hc) hn
  · intro c' hc' pid hpid
    rcases List.mem_map.mp hc' with ⟨c, hc, rfl⟩
    rw [(hf c).2.2] at hpid
    exact lt_of_lt_of_le (hpb c hc pid hpid) hn

theorem tameStep_preserves {db db' : DB} (h : TameStep db db')
    (hids : IdsOK db) (hlvl : LevelInv db) :
    IdsOK db' ∧ LevelInv db' ∧ StableFields db db' := by
  rcases h with ⟨hn, s, f, hs, hf, hcm⟩
  refine ⟨?_, ?_, ?_⟩
  · unfold IdsOK
    rw [hcm]
    exact idsOKL_map hf hn (idsOKL_sublist hs le_rfl hids)
  · unfold LevelInv LevelInvL
    rw [hcm]
    exact levelInvL_map hf (levelInvL_sublist hs hlvl)
  · intro c hc c' hc' hid
    rw [hcm] at hc'
    rcases List.mem_map.mp hc' with ⟨d, hd, rfl⟩
    rcases hf d with ⟨hdid, hdlvl, hdpar⟩
    have hdc : d = c := by
      apply eq_of_mem_pairwise_ne hids.1 (hs.subset hd) hc
      rw [← hdid]
      exact hid
    rw [hdlvl, hdpar, hdc]
    exact ⟨rfl, rfl⟩

theorem tameStep_of_eq {db db' : DB} (hc : db'.comments = db.comments)
    (hn : db.nextId ≤ db'.nextId) : TameStep db db' :=
  ⟨hn, db.comments, id, List.Sublist.refl _, fun _ => ⟨rfl, rfl, rfl⟩,
    by rw [List.map_id]; exact hc⟩

theorem tameStep_of_filter {db db' : DB} (p : CommentRow → Bool)
    (hc : db'.comments = db.comments.filter p)
    (hn : db.nextId ≤ db'.nextId) : TameStep db db' :=
  ⟨hn, db.comments.filter p, id, List.filter_sublist _,
    fun _ => ⟨rfl, rfl, rfl⟩, by rw [List.map_id]; exact hc⟩

/-- The like-row cascade never touches the comment table or the id
source. -/
theorem delLikesRec_comments (fuel : Nat) :
    ∀ (db : DB) (cid : Int),
      (delLikesRec fuel db cid).comments = db.comments ∧
      (delLikesRec fuel db cid).nextId = db.nextId := by
  induction fuel with
  | zero => intro db cid; exact ⟨rfl, rfl⟩
  | succ n ih =>
    intro db cid
    have hfold : ∀ (rs : List CommentRow) (acc : DB),
        ((rs.foldl (fun a r => delLikesRec n a r.id) acc).comments =
          acc.comments ∧
         (rs.foldl (fun a r => delLikesRec n a r.id) acc).nextId =
          acc.nextId) := by
      intro rs
      induction rs with
      | nil => intro acc; exact ⟨rfl, rfl⟩
      | cons r t iht =>
        intro acc
        rcases iht (delLikesRec n acc r.id) with ⟨h1, h2⟩
        rcases ih acc r.id with ⟨h3, h4⟩
        exact ⟨by rw [List.foldl_cons]; rw [h1, h3],
               by rw [List.foldl_cons]; rw [h2, h4]⟩
    exact hfold _ _

/-- The reply cascade only removes comment rows (its result is a sublist
of the table it started from) and never touches the id source. -/
theorem delRepliesRec_sublist (fuel : Nat) :
    ∀ (db : DB) (cid : Int),
      (delRepliesRec fuel db cid).comments.Sublist db.comments ∧
      (delRepliesRec fuel db cid).nextId = db.nextId := by
  induction fuel with
  | zero => intro db cid; exact ⟨List.Sublist.refl _, rfl⟩
  | succ n ih =>
    intro db cid
    have hfold : ∀ (rs : List CommentRow) (acc : DB),
        ((rs.foldl (fun a r => delRepliesRec n a r.id) acc).comments.Sublist
          acc.comments ∧
         (rs.foldl (fun a r => delRepliesRec n a r.id) acc).nextId =
          acc.nextId) := by
      intro rs
      induction rs with
      | nil => intro acc; exact ⟨List.Sublist.refl _, rfl⟩
      | cons r t iht =>
        intro acc
        rcases iht (delRepliesRec n acc r.id) with ⟨h1, h2⟩
        rcases ih acc r.id with ⟨h3, h4⟩
        exact ⟨by rw [List.foldl_cons]; exact h1.trans h3,
               by rw [List.foldl_cons]; rw [h2, h4]⟩
    rcases hfold (db.comments.filter (fun c => c.parentId = some cid)) db
      with ⟨h1, h2⟩
    exact ⟨(List.filter_sublist _).trans h1, h2⟩

theorem postLike_tame (db : DB) (now p u : Int) (db' : DB)
    (h : postLike db now p u = Except.ok db') : TameStep db db' := by
  unfold postLike at h
  cases hf : findPost db p with
  | none =>
    rw [hf] at h
    simp [throw, throwThe, MonadExceptOf.throw] at h
  | some q =>
    rw [hf] at h
    by_cases hc : 0 < (db.postLikes.filter
        (fun l => l.postId = p ∧ l.userId = u)).length
    · rw [if_pos hc] at h
      simp [throw, throwThe, MonadExceptOf.throw] at h
    · rw [if_neg hc] at h
      have hx := Except.ok.inj h
      subst hx
      exact tameStep_of_eq rfl (show db.nextId ≤ db.nextId + 1 by omega)

theorem postUnlike_tame (db : DB) (p u : Int) (db' : DB)
    (h : postUnlike db p u = Except.ok db') : TameStep db db' := by
  unfold postUnlike at h
  cases hf : findPost db p with
  | none =>
    rw [hf] at h
    simp [throw, throwThe, MonadExceptOf.throw] at h
  | some q =>
    rw [hf] at h
    by_cases hc : (db.postLikes.filter
        (fun l => l.postId = p ∧ l.userId = u)).length = 0
    · rw [if_pos hc] at h
      simp [throw, throwThe, MonadExceptOf.throw] at h
    · rw [if_neg hc] at h
      have hx := Except.ok.inj h
      subst hx
      exact tameStep_of_eq rfl (show db.nextId ≤ db.nextId by omega)

theorem postGetByID_tame (db : DB) (id viewer : Int) (v : PostView) (db' : DB)
    (h : postGetByID db id viewer = Except.ok (v, db')) : TameStep db db' := by
  unfold postGetByID at h
  cases hf : findPost db id with
  | none =>
    rw [hf] at h
    simp [throw, throwThe, MonadExceptOf.throw] at h
  | some q =>
    rw [hf] at h
    have hx := Except.ok.inj h
    have hx2 := congrArg Prod.snd hx
    simp only at hx2
    subst hx2
    exact tameStep_of_eq rfl (show db.nextId ≤ db.nextId by omega)

theorem commentLike_tame (db : DB) (now cid u : Int) (db' : DB)
    (h : commentLike db now cid u = Except.ok db') : TameStep db db' := by
  unfold commentLike at h
  cases hf : findComment db cid with
  | none =>
    rw [hf] at h
    simp [throw, throwThe, MonadExceptOf.throw] at h
  | some q =>
    rw [hf] at h
    by_cases hc : 0 < (db.commentLikes.filter
        (fun l => l.commentId = cid ∧ l.userId = u)).length
    · rw [if_pos hc] at h
      simp [throw, throwThe, MonadExceptOf.throw] at h
    · rw [if_neg hc] at h
      have hx := Except.ok.inj h
      subst hx
      refine ⟨show db.nextId ≤ db.nextId + 1 by omega, db.comments,
        (fun c => if c.id = cid then { c with likeCount := c.likeCount + 1 }
          else c),
        List.Sublist.refl _, ?_, rfl⟩
      intro c
      by_cases hcc : c.id = cid <;> simp [hcc]

theorem commentUnlike_tame (db : DB) (cid u : Int) (db' : DB)
    (h : commentUnlike db cid u = Except.ok db') : TameStep db db' := by
  unfold commentUnlike at h
  cases hf : findComment db cid with
  | none =>
    rw [hf] at h
    simp [throw, throwThe, MonadExceptOf.throw] at h
  | some q =>
    rw [hf] at h
    by_cases hc : (db.commentLikes.filter
        (fun l => l.commentId = cid ∧ l.userId = u)).length = 0
    · rw [if_pos hc] at h
      simp [throw, throwThe, MonadExceptOf.throw] at h
    · rw [if_neg hc] at h
      have hx := Except.ok.inj h
      subst hx
      refine ⟨show db.nextId ≤ db.nextId by omega, db.comments,
        (fun c => if c.id = cid then { c with likeCount := c.likeCount + (-1) }
          else c),
        List.Sublist.refl _, ?_, rfl⟩
      intro c
      by_cases hcc : c.id = cid <;> simp [hcc]

theorem commentDelete_tame (db : DB) (id : Int) (db' : DB)
    (h : commentDelete db id = Except.ok db') : TameStep db db' := by
  unfold commentDelete at h
  cases hf : findComment db id with
  | none =>
    rw [hf] at h
    simp [throw, throwThe, MonadExceptOf.throw] at h
  | some c0 =>
    simp only [hf] at h
    have hA := delLikesRec_comments (db.comments.length + 1) db id
    cases hp : c0.parentId with
    | none =>
      simp only [hp, pure, Except.pure] at h
      have hx := Except.ok.inj h
      subst hx
      set dbA := delLikesRec (db.comments.length + 1) db id with hAdef
      set dbB := delRepliesRec (dbA.comments.length + 1) dbA id with hBdef
      have hB := delRepliesRec_sublist (dbA.comments.length + 1) dbA id
      refine ⟨show db.nextId ≤ dbB.nextId from
          le_of_eq (hA.2.symm.trans hB.2.symm),
        dbB.comments.filter (fun c => ¬ c.id = id), (fun c => c), ?_,
        fun _ => ⟨rfl, rfl, rfl⟩, ?_⟩
      · exact (List.filter_sublist _).trans (hA.1 ▸ hB.1)
      · show dbB.comments.filter (fun c => ¬ c.id = id) = _
        rw [List.map_id']
    | some pid =>
      simp only [hp, pure, Except.pure] at h
      have hx := Except.ok.inj h
      subst hx
      set dbA := delLikesRec (db.comments.length + 1) db id with hAdef
      set dbB := delRepliesRec (dbA.comments.length + 1) dbA id with hBdef
      have hB := delRepliesRec_sublist (dbA.comments.length + 1) dbA id
      refine ⟨show db.nextId ≤ dbB.nextId from
          le_of_eq (hA.2.symm.trans hB.2.symm),
        dbB.comments.filter (fun c => ¬ c.id = id),
        (fun c => if c.id = pid then { c with replyCount := c.replyCount + (-1) }
          else c), ?_, ?_, rfl⟩
      · exact (List.filter_sublist _).trans (hA.1 ▸ hB.1)
      · intro c
        by_cases hcc : c.id = pid <;> simp [hcc]

/-- Inserting a fresh row (id = the id source) after a field-preserving
update of the table keeps the id discipline, keeps the nesting invariant
(provided the new row is levelled correctly against its parent), and
re-levels or re-parents no surviving row. -/
theorem insert_preserves (l : List CommentRow) (nid : Int)
    (f : CommentRow → CommentRow) (hf : KeepsIdLevelParent f)
    (new : CommentRow) (hnewid : new.id = nid)
    (hids : IdsOKL l nid) (hlvl : LevelInvL l)
    (hnew0 : new.parentId = none → new.level = 0)
    (hnewlvl : 0 ≤ new.level ∧ new.level ≤ 3)
    (hnewpar : ∀ pid, new.parentId = some pid →
      pid < nid ∧ ∀ d ∈ l, d.id = pid → new.level = d.level + 1) :
    IdsOKL (l.map f ++ [new]) (nid + 1) ∧ LevelInvL (l.map f ++ [new]) ∧
    (∀ c ∈ l, ∀ c' ∈ l.map f ++ [new], c'.id = c.id →
      c'.level = c.level ∧ c'.parentId = c.parentId) := by
  obtain ⟨hpw, hbound, hparbound⟩ := hids
  have hmap := idsOKL_map hf (le_refl nid) ⟨hpw, hbound, hparbound⟩
  obtain ⟨hpw', hbound', hparbound'⟩ := hmap
  refine ⟨⟨?_, ?_, ?_⟩, ?_, ?_⟩
  · -- pairwise distinct ids
    rw [List.pairwise_append]
    refine ⟨hpw', List.pairwise_singleton _ _, ?_⟩
    intro a ha b hb
    rw [List.mem_singleton] at hb
    subst hb
    rw [hnewid]
    exact fun hcontra => absurd (hcontra ▸ hbound' a ha) (lt_irrefl nid)
  · -- ids below the advanced id source
    intro c hc
    rcases List.mem_append.mp hc with hc1 | hc2
    · exact lt_trans (hbound' c hc1) (by omega)
    · rw [List.mem_singleton] at hc2
      subst hc2
      rw [hnewid]
      omega
  · -- parent pointers below the advanced id source
    intro c hc pid hpid
    rcases List.mem_append.mp hc with hc1 | hc2
    · exact lt_trans (hparbound' c hc1 pid hpid) (by omega)
    · rw [List.mem_singleton] at hc2
      subst hc2
      exact lt_trans (hnewpar pid hpid).1 (by omega)
  · -- the nesting invariant
    intro c' hc'
    rcases List.mem_append.mp hc' with hc1 | hc2
    · rcases List.mem_map.mp hc1 with ⟨c, hc, rfl⟩
      rcases hlvl c hc with ⟨h0, h1, h2, h3⟩
      rcases hf c with ⟨hfid, hflvl, hfpar⟩
      refine ⟨?_, ?_, ?_, ?_⟩
      · intro hnone
        rw [hflvl]
        exact h0 (by rwa [hfpar] at hnone)
      · intro parent' hp' hpid
        rcases List.mem_append.mp hp' with hp1 | hp2
        · rcases List.mem_map.mp hp1 with ⟨d, hd, rfl⟩
          rcases hf d with ⟨hdid, hdlvl, _⟩
          rw [hflvl, hdlvl]
          rw [hfpar] at hpid
          rw [hdid] at hpid
          exact h1 d hd hpid
        · rw [List.mem_singleton] at hp2
          subst hp2
          rw [hfpar] at hpid
          rw [hnewid] at hpid
          exact absurd (hparbound c hc nid hpid) (lt_irrefl nid)
      · rwa [hflvl]
      · rwa [hflvl]
    · rw [List.mem_singleton] at hc2
      subst hc2
      refine ⟨hnew0, ?_, hnewlvl.1, hnewlvl.2⟩
      intro parent' hp' hpid
      rcases List.mem_append.mp hp' with hp1 | hp2
      · rcases List.mem_map.mp hp1 with ⟨d, hd, rfl⟩
        rcases hf d with ⟨hdid, hdlvl, _⟩
        rw [hdid] at hpid
        rw [hdlvl]
        exact (hnewpar d.id hpid).2 d hd rfl
      · rw [List.mem_singleton] at hp2
        subst hp2
        rcases hnewpar _ hpid with ⟨hlt, _⟩
        rw [hnewid] at hlt
        exact absurd hlt (lt_irrefl nid)
  · -- no surviving row is re-levelled or re-parented
    intro c hc c' hc' hid
    rcases List.mem_append.mp hc' with hc1 | hc2
    · rcases List.mem_map.mp hc1 with ⟨d, hd, rfl⟩
      rcases hf d with ⟨hdid, hdlvl, hdpar⟩
      have hdc : d = c := by
        apply eq_of_mem_pairwise_ne hpw hd hc
        rw [← hdid]
        exact hid
      rw [hdlvl, hdpar, hdc]
      exact ⟨rfl, rfl⟩
    · rw [List.mem_singleton] at hc2
      subst hc2
      rw [hnewid] at hid
      exact absurd (hid ▸ hbound c hc) (lt_irrefl nid)

theorem createComment_step (db : DB) (now postId userId : Int)
    (parentId : Option Int) (content : String)
    (hids : IdsOK db) (hlvl : LevelInv db) :
    IdsOK (applyOp (Op.createComment postId userId parentId content) now db) ∧
    LevelInv (applyOp (Op.createComment postId userId parentId content) now db) ∧
    StableFields db
      (applyOp (Op.createComment postId userId parentId content) now db) := by
  cases parentId with
  | none =>
    have hres := insert_preserves db.comments db.nextId (fun c => c)
      (fun _ => ⟨rfl, rfl, rfl⟩)
      ({ id := db.nextId, postId := postId, userId := userId, parentId := none,
         content := content, likeCount := 0, replyCount := 0, level := 0,
         createdAt := now, updatedAt := now }) rfl hids hlvl
      (fun _ => rfl)
      ⟨show (0 : Int) ≤ 0 from le_refl 0, show (0 : Int) ≤ 3 by norm_num⟩
      (by intro pid hpid; simp at hpid)
    rw [List.map_id'] at hres
    exact ⟨hres.1, hres.2.1, hres.2.2⟩
  | some pid =>
    cases hfq : findComment db pid with
    | none =>
      have herr : commentCreate db now postId userId (some pid) content =
          Except.error Err.parentNotFound := by
        simp only [commentCreate, hfq]
      have hred : applyOp (Op.createComment postId userId (some pid) content)
          now db = db := by
        simp [applyOp, herr]
      rw [hred]
      exact tameStep_preserves (tameStep_of_eq rfl le_rfl) hids hlvl
    | some q =>
      by_cases hl3 : q.level + 1 > 3
      · have herr : commentCreate db now postId userId (some pid) content =
            Except.error Err.maxNestingExceeded := by
          simp only [commentCreate, hfq]
          rw [if_pos hl3]
        have hred : applyOp (Op.createComment postId userId (some pid) content)
            now db = db := by
          simp [applyOp, herr]
        rw [hred]
        exact tameStep_preserves (tameStep_of_eq rfl le_rfl) hids hlvl
      · have hok := commentCreate_some_ok db now postId userId pid content q
          hfq hl3
        have hred : applyOp (Op.createComment postId userId (some pid) content)
            now db = createdDb db now postId userId pid q.level content := by
          simp [applyOp, hok]
        have hqmem : q ∈ db.comments := List.mem_of_find?_eq_some hfq
        have hqid : q.id = pid := by simpa using List.find?_some hfq
        rcases hlvl q hqmem with ⟨_, _, hq0, hq3⟩
        have hpar : ∀ pid',
            (createdRow db now postId userId pid q.level content).parentId =
              some pid' →
            pid' < db.nextId ∧ ∀ d ∈ db.comments, d.id = pid' →
              (createdRow db now postId userId pid q.level content).level =
                d.level + 1 := by
          intro pid' hpid'
          have hpp : pid = pid' := by
            simpa [createdRow] using hpid'
          subst hpp
          constructor
          · rw [← hqid]
            exact hids.2.1 q hqmem
          · intro d hd hdid
            have hdq : d = q :=
              eq_of_mem_pairwise_ne hids.1 hd hqmem (by rw [hdid, hqid])
            rw [hdq]
            rfl
        have hres := insert_preserves db.comments db.nextId
          (fun c => if c.id = pid then { c with replyCount := c.replyCount + 1 }
            else c)
          (by intro c; by_cases hcc : c.id = pid <;> simp [hcc])
          (createdRow db now postId userId pid q.level content) rfl hids hlvl
          (by intro hnone; simp [createdRow] at hnone)
          ⟨show (0 : Int) ≤ q.level + 1 by omega,
           show q.level + 1 ≤ 3 by omega⟩
          hpar
        rw [hred]
        exact ⟨hres.1, hres.2.1, hres.2.2⟩

/-- Every engine step preserves the id discipline and the nesting
invariant, and re-levels or re-parents no surviving comment row. -/
theorem applyOp_preserves (op : Op) (now : Int) (db : DB)
    (hids : IdsOK db) (hlvl : LevelInv db) :
    IdsOK (applyOp op now db) ∧ LevelInv (applyOp op now db) ∧
    StableFields db (applyOp op now db) := by
  cases op with
  | createPost u c imgs =>
    have hred : applyOp (Op.createPost u c imgs) now db = { db with
        posts := db.posts ++
          [{ id := db.nextId, userId := u, content := c, viewCount := 0,
             likeCount := 0, commentCount := 0, createdAt := now,
             updatedAt := now }],
        postImages := db.postImages ++
          ((List.range imgs.length).zip imgs).map
            (fun p => { id := db.nextId + 1 + (p.1 : Int), postId := db.nextId,
                        imagePath := p.2, displayOrder := (p.1 : Int),
                        createdAt := now }),
        nextId := db.nextId + 1 + imgs.length } := by
      simp [applyOp, postCreate_eq]
    rw [hred]
    refine tameStep_preserves (tameStep_of_eq rfl ?_) hids hlvl
    show db.nextId ≤ db.nextId + 1 + (imgs.length : Int)
    omega
  | updatePost id c =>
    exact tameStep_preserves (tameStep_of_eq rfl le_rfl) hids hlvl
  | deletePost id =>
    exact tameStep_preserves
      (tameStep_of_filter (fun c => ¬ c.postId = id) rfl le_rfl) hids hlvl
  | likePost p u =>
    cases hres : postLike db now p u with
    | error e =>
      have hred : applyOp (Op.likePost p u) now db = db := by
        simp [applyOp, hres]
      rw [hred]
      exact tameStep_preserves (tameStep_of_eq rfl le_rfl) hids hlvl
    | ok db' =>
      have hred : applyOp (Op.likePost p u) now db = db' := by
        simp [applyOp, hres]
      rw [hred]
      exact tameStep_preserves (postLike_tame db now p u db' hres) hids hlvl
  | unlikePost p u =>
    cases hres : postUnlike db p u with
    | error e =>
      have hred : applyOp (Op.unlikePost p u) now db = db := by
        simp [applyOp, hres]
      rw [hred]
      exact tameStep_preserves (tameStep_of_eq rfl le_rfl) hids hlvl
    | ok db' =>
      have hred : applyOp (Op.unlikePost p u) now db = db' := by
        simp [applyOp, hres]
      rw [hred]
      exact tameStep_preserves (postUnlike_tame db p u db' hres) hids hlvl
  | viewPost id viewer =>
    cases hres : postGetByID db id viewer with
    | error e =>
      have hred : applyOp (Op.viewPost id viewer) now db = db := by
        simp [applyOp, hres]
      rw [hred]
      exact tameStep_preserves (tameStep_of_eq rfl le_rfl) hids hlvl
    | ok pr =>
      have hred : applyOp (Op.viewPost id viewer) now db = pr.2 := by
        simp [applyOp, hres]
      rw [hred]
      exact tameStep_preserves
        (postGetByID_tame db id viewer pr.1 pr.2 (by rw [hres])) hids hlvl
  | createComment p u parent c =>
    exact createComment_step db now p u parent c hids hlvl
  | deleteComment id =>
    cases hres : commentDelete db id with
    | error e =>
      have hred : applyOp (Op.deleteComment id) now db = db := by
        simp [applyOp, hres]
      rw [hred]
      exact tameStep_preserves (tameStep_of_eq rfl le_rfl) hids hlvl
    | ok db' =>
      have hred : applyOp (Op.deleteComment id) now db = db' := by
        simp [applyOp, hres]
      rw [hred]
      exact tameStep_preserves (commentDelete_tame db id db' hres) hids hlvl
  | likeComment cid u =>
    cases hres : commentLike db now cid u with
    | error e =>
      have hred : applyOp (Op.likeComment cid u) now db = db := by
        simp [applyOp, hres]
      rw [hred]
      exact tameStep_preserves (tameStep_of_eq rfl le_rfl) hids hlvl
    | ok db' =>
      have hred : applyOp (Op.likeComment cid u) now db = db' := by
        simp [applyOp, hres]
      rw [hred]
      exact tameStep_preserves (commentLike_tame db now cid u db' hres) hids hlvl
  | unlikeComment cid u =>
    cases hres : commentUnlike db cid u with
    | error e =>
      have hred : applyOp (Op.unlikeComment cid u) now db = db := by
        simp [applyOp, hres]
      rw [hred]
      exact tameStep_preserves (tameStep_of_eq rfl le_rfl) hids hlvl
    | ok db' =>
      have hred : applyOp (Op.unlikeComment cid u) now db = db' := by
        simp [applyOp, hres]
      rw [hred]
      exact tameStep_preserves (commentUnlike_tame db cid u db' hres) hids hlvl

/-- Every reachable store satisfies the id discipline and the nesting
invariant. -/
theorem reachable_wf (db : DB) (h : Reachable db) : IdsOK db ∧ LevelInv db := by
  induction h with
  | init =>
    refine ⟨⟨List.Pairwise.nil, ?_, ?_⟩, ?_⟩
    · intro c hc
      cases hc
    · intro c hc pid hpid
      cases hc
    · intro c hc
      cases hc
  | step op now hdb ih =>
    rcases ih with ⟨hids, hlvl⟩
    exact ⟨(applyOp_preserves op now _ hids hlvl).1,
           (applyOp_preserves op now _ hids hlvl).2.1⟩

/-- C3: after every completed operation (i.e., in every reachable store),
every comment row has level 0 when parentless and level `parent.level + 1`
when its parent row is present, with level in [0, 3]; and no operation
changes a surviving comment's level or parent_id — the nesting invariant
holds for the full lifetime of every row. -/
theorem comment_level_parent_invariant (db : DB) (h : Reachable db) :
    (∀ c ∈ db.comments,
      (c.parentId = none → c.level = 0) ∧
      (∀ parent ∈ db.comments, c.parentId = some parent.id →
        c.level = parent.level + 1) ∧
      0 ≤ c.level ∧ c.level ≤ 3) ∧
    (∀ (op : Op) (now : Int), ∀ c ∈ db.comments,
      ∀ c' ∈ (applyOp op now db).comments, c'.id = c.id →
        c'.level = c.level ∧ c'.parentId = c.parentId) := by
  obtain ⟨hids, hlvl⟩ := reachable_wf db h
  exact ⟨hlvl, fun op now => (applyOp_preserves op now db hids hlvl).2.2⟩

theorem comment_level_parent_invariant_witness :
    (∀ c ∈ chain4Db.comments,
      (c.parentId = none → c.level = 0) ∧
      (∀ parent ∈ chain4Db.comments, c.parentId = some parent.id →
        c.level = parent.level + 1) ∧
      0 ≤ c.level ∧ c.level ≤ 3) ∧
    (∀ (op : Op) (now : Int), ∀ c ∈ chain4Db.comments,
      ∀ c' ∈ (applyOp op now chain4Db).comments, c'.id = c.id →
        c'.level = c.level ∧ c'.parentId = c.parentId) :=
  comment_level_parent_invariant chain4Db
    (Reachable.step _ _ (Reachable.step _ _ (Reachable.step _ _
      (Reachable.step _ _ (Reachable.step _ _ Reachable.init)))))

/-! ## C6 — ListComments: filtering, ordering, pagination, full subtrees -/

mutual
/-- The tree at this node is the full reply subtree of its row: the
node's replies are exactly its children in the store, ordered by creation
time ascending and carrying the viewer's liked flag, and each child
recursively satisfies the same — until a node has no children. -/
def subtreeOK (db : DB) (viewer : Int) : CommentTree → Bool
  | ⟨row, liked, replies⟩ =>
    (replies.map CommentTree.row ==
      sortByCreatedAsc (db.comments.filter
        (fun c => c.parentId = some row.id))) &&
    (liked == commentLikedBy db row.id viewer) &&
    subtreeOKList db viewer replies

/-- `subtreeOK` over a list of sibling trees. -/
def subtreeOKList (db : DB) (viewer : Int) : List CommentTree → Bool
  | [] => true
  | t :: ts => subtreeOK db viewer t && subtreeOKList db viewer ts
end

theorem subtreeOKList_iff (db : DB) (viewer : Int) (l : List CommentTree) :
    subtreeOKList db viewer l = true ↔
      ∀ t ∈ l, subtreeOK db viewer t = true := by
  induction l with
  | nil => simp [subtreeOKList]
  | cons t ts ih => simp [subtreeOKList, ih]

instance : IsTotal CommentRow (fun a b => b.createdAt ≤ a.createdAt) :=
  ⟨fun a b => le_total b.createdAt a.createdAt⟩

instance : IsTrans CommentRow (fun a b => b.createdAt ≤ a.createdAt) :=
  ⟨fun _ _ _ hab hbc => le_trans hbc hab⟩

theorem length_filter_mono {α : Type} (p q : α → Bool)
    (himp : ∀ a, p a = true → q a = true) :
    ∀ l : List α, (l.filter p).length ≤ (l.filter q).length := by
  intro l
  induction l with
  | nil => simp
  | cons x t ih =>
    rw [List.filter_cons, List.filter_cons]
    by_cases hpx : p x = true
    · rw [if_pos hpx, if_pos (himp x hpx)]
      simpa using ih
    · rw [if_neg hpx]
      by_cases hqx : q x = true
      · rw [if_pos hqx]
        simp only [List.length_cons]
        omega
      · rw [if_neg hqx]
        exact ih

theorem length_filter_lt {α : Type} (p q : α → Bool)
    (himp : ∀ a, p a = true → q a = true) (a : α) (hqa : q a = true)
    (hpa : ¬ p a = true) :
    ∀ l : List α, a ∈ l → (l.filter p).length < (l.filter q).length := by
  intro l
  induction l with
  | nil => intro h; cases h
  | cons x t ih =>
    intro hmem
    rw [List.filter_cons, List.filter_cons]
    rcases List.mem_cons.mp hmem with rfl | hat
    · rw [if_neg hpa, if_pos hqa]
      have := length_filter_mono p q himp t
      simp only [List.length_cons]
      omega
    · have hlt := ih hat
      by_cases hpx : p x = true
      · rw [if_pos hpx, if_pos (himp x hpx)]
        simpa using hlt
      · rw [if_neg hpx]
        by_cases hqx : q x = true
        · rw [if_pos hqx]
          simp only [List.length_cons]
          omega
        · rw [if_neg hqx]
          exact hlt

/-- With enough fuel (as at every call site) and a level-consistent store,
`GetReplies` returns exactly the direct children ordered by creation time
ascending, and every returned tree is the full reply subtree.  The
`level < 3` recursion guard in the source is immaterial: by the nesting
invariant a level-3 comment has no children. -/
theorem getReplies_complete (db : DB) (viewer : Int) (hlvl : LevelInv db) :
    ∀ (fuel : Nat) (parent : CommentRow), parent ∈ db.comments →
      (db.comments.filter (fun c => parent.level < c.level)).length < fuel →
      ((getReplies fuel db parent.id viewer).map CommentTree.row =
        sortByCreatedAsc (db.comments.filter
          (fun c => c.parentId = some parent.id))) ∧
      (∀ t ∈ getReplies fuel db parent.id viewer,
        subtreeOK db viewer t = true) := by
  intro fuel
  induction fuel with
  | zero =>
    intro parent _ hm
    omega
  | succ n ih =>
    intro parent hpmem hm
    constructor
    · simp only [getReplies, List.map_map]
      rw [show (CommentTree.row ∘ fun r : CommentRow =>
          ({ row := r, liked := commentLikedBy db r.id viewer,
             replies := if r.level < 3 then getReplies n db r.id viewer
               else [] } : CommentTree)) = (fun r : CommentRow => r) from rfl]
      rw [List.map_id']
    · intro t ht
      simp only [getReplies] at ht
      rcases List.mem_map.mp ht with ⟨r, hr, rfl⟩
      have hr' : r ∈ db.comments.filter
          (fun c => c.parentId = some parent.id) := by
        unfold sortByCreatedAsc at hr
        exact (List.mem_insertionSort _).mp hr
      rcases List.mem_filter.mp hr' with ⟨hrmem, hrpar'⟩
      have hrpar : r.parentId = some parent.id := by simpa using hrpar'
      have hrlvl : r.level = parent.level + 1 :=
        (hlvl r hrmem).2.1 parent hpmem hrpar
      have hmeas : (db.comments.filter
          (fun c => r.level < c.level)).length < n := by
        have hstrict := length_filter_lt
          (fun c => decide (r.level < c.level))
          (fun c => decide (parent.level < c.level))
          (by intro a h; simp at h ⊢; omega)
          r (by simp; omega) (by simp) db.comments hrmem
        omega
      rw [subtreeOK]
      simp only [Bool.and_eq_true, beq_iff_eq]
      refine ⟨⟨?_, trivial⟩, ?_⟩
      · by_cases hr3 : r.level < 3
        · rw [if_pos hr3]
          exact (ih r hrmem hmeas).1
        · rw [if_neg hr3]
          have hchild : db.comments.filter
              (fun c => c.parentId = some r.id) = [] := by
            rw [List.filter_eq_nil_iff]
            intro c hc
            simp only [decide_eq_true_eq]
            intro hcp
            have hclvl := (hlvl c hc).2.1 r hrmem hcp
            have hc3 := (hlvl c hc).2.2.2
            have hr3' := (hlvl r hrmem).2.2.2
            omega
          rw [hchild]
          rfl
      · by_cases hr3 : r.level < 3
        · rw [if_pos hr3]
          exact (subtreeOKList_iff _ _ _).mpr (ih r hrmem hmeas).2
        · rw [if_neg hr3]
          rfl

/-- C6: for every post, page and page size, `ListComments` returns only
that post's level-0 comments, ordered by creation time descending,
paginated with offset `(page-1)*pageSize` and limit `pageSize`, together
with the total count of the post's top-level comments; and each returned
comment carries its full reply subtree, children ordered by creation
time ascending at every node, recursively until a node has no children.
(The store is assumed level-consistent — true of every reachable store
by C3.) -/
theorem listComments_spec (db : DB) (postId page pageSize viewer : Int)
    (hlvl : LevelInv db) :
    ((listComments db postId page pageSize viewer).2 =
      ((db.comments.filter
        (fun c => c.postId = postId ∧ c.level = 0)).length : Int)) ∧
    ((listComments db postId page pageSize viewer).1.map CommentTree.row =
      ((sortByCreatedDesc (db.comments.filter
        (fun c => c.postId = postId ∧ c.level = 0))).drop
          ((page - 1) * pageSize).toNat).take pageSize.toNat) ∧
    (∀ t ∈ (listComments db postId page pageSize viewer).1,
      t.row.postId = postId ∧ t.row.level = 0 ∧ t.row ∈ db.comments ∧
      t.liked = commentLikedBy db t.row.id viewer) ∧
    (((listComments db postId page pageSize viewer).1.map
        CommentTree.row).Pairwise (fun a b => b.createdAt ≤ a.createdAt)) ∧
    (∀ t ∈ (listComments db postId page pageSize viewer).1,
      subtreeOK db viewer t = true) := by
  have hb : (listComments db postId page pageSize viewer).1.map
      CommentTree.row =
      ((sortByCreatedDesc (db.comments.filter
        (fun c => c.postId = postId ∧ c.level = 0))).drop
          ((page - 1) * pageSize).toNat).take pageSize.toNat := by
    simp only [listComments, List.map_map]
    rw [show (CommentTree.row ∘ fun r : CommentRow =>
        ({ row := r, liked := commentLikedBy db r.id viewer,
           replies := getReplies (db.comments.length + 1) db r.id viewer }
          : CommentTree)) = (fun r : CommentRow => r) from rfl]
    rw [List.map_id']
  have hmem : ∀ t ∈ (listComments db postId page pageSize viewer).1,
      ∃ r, r ∈ db.comments ∧ r.postId = postId ∧ r.level = 0 ∧
        t = { row := r, liked := commentLikedBy db r.id viewer,
              replies := getReplies (db.comments.length + 1) db r.id viewer } := by
    intro t ht
    simp only [listComments] at ht
    rcases List.mem_map.mp ht with ⟨r, hr, rfl⟩
    have hr1 : r ∈ (sortByCreatedDesc (db.comments.filter
        (fun c => c.postId = postId ∧ c.level = 0))).drop
          ((page - 1) * pageSize).toNat :=
      (List.take_sublist _ _).subset hr
    have hr2 : r ∈ sortByCreatedDesc (db.comments.filter
        (fun c => c.postId = postId ∧ c.level = 0)) :=
      (List.drop_sublist _ _).subset hr1
    have hr3 : r ∈ db.comments.filter
        (fun c => c.postId = postId ∧ c.level = 0) := by
      unfold sortByCreatedDesc at hr2
      exact (List.mem_insertionSort _).mp hr2
    rcases List.mem_filter.mp hr3 with ⟨hrmem, hrprop⟩
    rcases (by simpa using hrprop : r.postId = postId ∧ r.level = 0)
      with ⟨hpid, hlvl0⟩
    exact ⟨r, hrmem, hpid, hlvl0, rfl⟩
  refine ⟨rfl, hb, ?_, ?_, ?_⟩
  · intro t ht
    rcases hmem t ht with ⟨r, hrmem, hpid, hlvl0, rfl⟩
    exact ⟨hpid, hlvl0, hrmem, rfl⟩
  · rw [hb]
    exact List.Pairwise.sublist
      ((List.take_sublist _ _).trans (List.drop_sublist _ _))
      (List.sorted_insertionSort _ _)
  · intro t ht
    rcases hmem t ht with ⟨r, hrmem, hpid, hlvl0, rfl⟩
    have hfuel : (db.comments.filter
        (fun c => r.level < c.level)).length < db.comments.length + 1 :=
      Nat.lt_succ_of_le (List.length_filter_le _ _)
    have hgr := getReplies_complete db viewer hlvl (db.comments.length + 1)
      r hrmem hfuel
    rw [subtreeOK]
    simp only [Bool.and_eq_true, beq_iff_eq]
    exact ⟨⟨hgr.1, trivial⟩, (subtreeOKList_iff _ _ _).mpr hgr.2⟩

theorem listComments_spec_witness :
    ((listComments likedDb 1 1 10 20).2 =
      ((likedDb.comments.filter
        (fun c => c.postId = 1 ∧ c.level = 0)).length : Int)) ∧
    ((listComments likedDb 1 1 10 20).1.map CommentTree.row =
      ((sortByCreatedDesc (likedDb.comments.filter
        (fun c => c.postId = 1 ∧ c.level = 0))).drop
          ((1 - 1) * 10 : Int).toNat).take (10 : Int).toNat) ∧
    (∀ t ∈ (listComments likedDb 1 1 10 20).1,
      t.row.postId = 1 ∧ t.row.level = 0 ∧ t.row ∈ likedDb.comments ∧
      t.liked = commentLikedBy likedDb t.row.id 20) ∧
    (((listComments likedDb 1 1 10 20).1.map
        CommentTree.row).Pairwise (fun a b => b.createdAt ≤ a.createdAt)) ∧
    (∀ t ∈ (listComments likedDb 1 1 10 20).1,
      subtreeOK likedDb 20 t = true) :=
  listComments_spec likedDb 1 1 10 20
    (by unfold LevelInv LevelInvL LevelInvRow; decide)
